import Mathlib

/-!
Verification of the hierarchical timeline store of komet_helpers.py
(v2.0 format): load_timeline, save_timeline, add_observation,
add_journal_observation, get_metric_series, get_latest_value,
get_all_latest_metrics.

The store operates on parsed JSON documents (Python dicts/lists/scalars).
We embed those values as `PyVal`, Python dicts as insertion-ordered
association lists with unique keys, and Python exceptions
(TypeError / KeyError / AttributeError) as an `Except Err` result.
Timestamps (`format_timestamp()`) are passed in explicitly as a `now`
string argument.
-/

/-- A parsed JSON value as manipulated by the Python code.
Python dicts are insertion-ordered association lists. Floats do not occur
in the timeline-store claims and are omitted. -/
inductive PyVal where
  | null : PyVal
  | bool (b : Bool) : PyVal
  | int (n : Int) : PyVal
  | str (s : String) : PyVal
  | list (xs : List PyVal) : PyVal
  | dict (d : List (String × PyVal)) : PyVal
  deriving Repr

/-- Python exceptions that the timeline functions can raise. -/
inductive Err where
  | typeError : Err
  | keyError : Err
  | attrError : Err
  deriving Repr, DecidableEq

/-- Python dict lookup (`d[k]` / `d.get(k)`): first (only) binding of `k`. -/
def dlookup {α : Type} (d : List (String × α)) (k : String) : Option α :=
  match d with
  | [] => none
  | (k1, v) :: rest => if k1 = k then some v else dlookup rest k

/-- Python `k in d` for a dict. -/
def dmem {α : Type} (d : List (String × α)) (k : String) : Bool :=
  (dlookup d k).isSome

/-- Python dict assignment `d[k] = v`: replaces in place if the key exists
(keeping its position), otherwise appends the new binding at the end. -/
def dset {α : Type} (d : List (String × α)) (k : String) (v : α) : List (String × α) :=
  match d with
  | [] => [(k, v)]
  | (k1, v1) :: rest => if k1 = k then (k, v) :: rest else (k1, v1) :: dset rest k v

/-- Python truthiness of a value (`if x:`). -/
def truthy : PyVal → Bool
  | PyVal.null => false
  | PyVal.bool b => b
  | PyVal.int n => n != 0
  | PyVal.str s => s != ""
  | PyVal.list xs => !xs.isEmpty
  | PyVal.dict d => !d.isEmpty

/-- Python truthiness of an `Optional[str]` argument. -/
def truthyOptStr : Option String → Bool
  | some s => s != ""
  | none => false

/-- Scalar (non-container) JSON value. -/
def isScalar : PyVal → Bool
  | PyVal.null => true
  | PyVal.bool _ => true
  | PyVal.int _ => true
  | PyVal.str _ => true
  | _ => false

mutual
/-- Python `==` on parsed JSON values: `None == None`; booleans and ints
compare numerically (`0 == False`, `1 == True`); strings by exact match;
lists elementwise; dicts by equal size and pointwise-equal values under
the same keys. No coercion between numbers and strings or `None`. -/
def pyEq : PyVal → PyVal → Bool
  | PyVal.null, PyVal.null => true
  | PyVal.bool a, PyVal.bool b => a == b
  | PyVal.bool a, PyVal.int n => (if a then (1 : Int) else 0) == n
  | PyVal.int n, PyVal.bool b => n == (if b then (1 : Int) else 0)
  | PyVal.int m, PyVal.int n => m == n
  | PyVal.str a, PyVal.str b => a == b
  | PyVal.list xs, PyVal.list ys => pyEqList xs ys
  | PyVal.dict a, PyVal.dict b => a.length == b.length && pyEqDictSub a b
  | _, _ => false

/-- Python `==` on lists, elementwise. -/
def pyEqList : List PyVal → List PyVal → Bool
  | [], [] => true
  | x :: xs, y :: ys => pyEq x y && pyEqList xs ys
  | _, _ => false

/-- Every binding of the first dict is matched by an equal binding in the
second (with equal lengths this is Python dict equality). -/
def pyEqDictSub : List (String × PyVal) → List (String × PyVal) → Bool
  | [], _ => true
  | (k, v) :: rest, b =>
      (match dlookup b k with
       | some w => pyEq v w
       | none => false) && pyEqDictSub rest b
end

/-- Accumulator pass of `splitDot`. -/
def splitDotAux : List Char → List Char → List (List Char)
  | [], acc => [acc.reverse]
  | c :: rest, acc =>
      if c = '.' then acc.reverse :: splitDotAux rest [] else splitDotAux rest (c :: acc)

/-- Python `s.split(".")`: cut at every dot, keeping empty pieces
(`"".split(".") == [""]`, `"a..b".split(".") == ["a","","b"]`). -/
def splitDot (s : String) : List String :=
  (splitDotAux s.data []).map (fun cs => String.mk cs)

/-- Prefix test on character lists. -/
def charListPre : List Char → List Char → Bool
  | [], _ => true
  | _ :: _, [] => false
  | a :: as, b :: bs => a == b && charListPre as bs

/-- Substring test on character lists (Python `p in s` for strings). -/
def charListSub : List Char → List Char → Bool
  | p, [] => p.isEmpty
  | p, s@(_ :: rest) => charListPre p s || charListSub p rest

/-- Python `p in s` for strings: substring containment. -/
def strContains (p s : String) : Bool := charListSub p.data s.data

/-- Python `k in v` for an arbitrary value: dict key membership, string
substring containment, list membership via `==`; otherwise a `TypeError`. -/
def pyContains (v : PyVal) (k : String) : Except Err Bool :=
  match v with
  | PyVal.dict d => pure (dmem d k)
  | PyVal.str s => pure (strContains k s)
  | PyVal.list xs => pure (xs.any (fun x => pyEq (PyVal.str k) x))
  | _ => throw Err.typeError

/-- The `{"t": ..., "v": ...}` observation dict appended by the recorder. -/
def obsD (now : String) (value : PyVal) : PyVal :=
  PyVal.dict [("t", PyVal.str now), ("v", value)]

/-- Source `_create_empty_timeline`: the fresh v2.0 document, with
`created` stamped by `format_timestamp()` (the `now` argument). -/
def create_empty_timeline (now : String) : List (String × PyVal) :=
  [("metadata", PyVal.dict
      [("created", PyVal.str now),
       ("last_updated", PyVal.null),
       ("version", PyVal.str "2.0"),
       ("description", PyVal.str "KOMET project evaluation metrics timeline")]),
   ("metrics", PyVal.dict
      [("wikidata", PyVal.dict
          [("description", PyVal.str "Wikidata scholarly graph metrics"),
           ("journals", PyVal.dict
              [("description", PyVal.str "Partner journal statistics from Wikidata")])]),
       ("opencitations", PyVal.dict
          [("description", PyVal.str "OpenCitations crowdsourcing metrics")])])]

/-- Source `load_timeline`: `stored = none` models `FileNotFoundError`
(missing file), `some data` the parsed JSON. The code accepts the stored
document iff `"metadata" in data and "metrics" in data`, otherwise it
returns `_create_empty_timeline()`. -/
def load_timeline (stored : Option PyVal) (now : String) : Except Err PyVal :=
  match stored with
  | none => pure (PyVal.dict (create_empty_timeline now))
  | some data =>
      match pyContains data "metadata" with
      | Except.error e => Except.error e
      | Except.ok b1 =>
          if b1 then
            match pyContains data "metrics" with
            | Except.error e => Except.error e
            | Except.ok b2 =>
                if b2 then pure data else pure (PyVal.dict (create_empty_timeline now))
          else pure (PyVal.dict (create_empty_timeline now))

/-- Source `save_timeline`: stamps `timeline["metadata"]["last_updated"]`
with `format_timestamp()` and serializes the document; the returned dict is
both the mutated in-memory document and the persisted content. -/
def save_timeline (timeline : List (String × PyVal)) (now : String) :
    Except Err (List (String × PyVal)) :=
  match dlookup timeline "metadata" with
  | some (PyVal.dict md) =>
      pure (dset timeline "metadata" (PyVal.dict (dset md "last_updated" (PyVal.str now))))
  | some _ => throw Err.typeError
  | none => throw Err.keyError

/-- The fresh leaf dict created by `add_observation` when no metric exists
at the final key: `{"series": []}`, then `name`/`description`/`notes`
when truthy, then `"unit": "count"`. -/
def newLeaf (metric_name metric_description notes : Option String) :
    List (String × PyVal) :=
  [("series", PyVal.list [])]
    ++ (if truthyOptStr metric_name then
          [("name", PyVal.str (metric_name.getD ""))] else [])
    ++ (if truthyOptStr metric_description then
          [("description", PyVal.str (metric_description.getD ""))] else [])
    ++ (if truthyOptStr notes then
          [("notes", PyVal.str (notes.getD ""))] else [])
    ++ [("unit", PyVal.str "count")]

/-- Final step of `add_observation` at the dict holding the last path
segment `mk`: create the leaf if missing, then compare the candidate value
to the last stored `v` and either suppress (`false`) or append (`true`). -/
def finalStep (cur : List (String × PyVal)) (mk : String) (value : PyVal)
    (now : String) (mname mdesc mnotes : Option String) :
    Except Err (List (String × PyVal) × Bool) :=
  match dlookup cur mk with
  | none =>
      pure (dset cur mk
        (PyVal.dict (dset (newLeaf mname mdesc mnotes) "series"
          (PyVal.list [obsD now value]))), true)
  | some (PyVal.dict metric) =>
      match dlookup metric "series" with
      | none =>
          pure (dset cur mk
            (PyVal.dict (dset metric "series" (PyVal.list [obsD now value]))), true)
      | some (PyVal.list xs) =>
          match xs.getLast? with
          | none =>
              pure (dset cur mk
                (PyVal.dict (dset metric "series" (PyVal.list [obsD now value]))), true)
          | some (PyVal.dict od) =>
              match dlookup od "v" with
              | some lv =>
                  if pyEq lv value then pure (cur, false)
                  else
                    pure (dset cur mk
                      (PyVal.dict (dset metric "series"
                        (PyVal.list (xs ++ [obsD now value])))), true)
              | none => throw Err.keyError
          | some _ => throw Err.typeError
      | some sv => if truthy sv then throw Err.typeError else throw Err.attrError
  | some _ => throw Err.attrError

/-- Navigation loop of `add_observation` over the intermediate path
segments: missing segments get fresh `{}` dicts; descending into a
non-dict value is a `TypeError` in Python. -/
def addObsAt (parts : List String) (cur : List (String × PyVal)) (mk : String)
    (value : PyVal) (now : String) (mname mdesc mnotes : Option String) :
    Except Err (List (String × PyVal) × Bool) :=
  match parts with
  | [] => finalStep cur mk value now mname mdesc mnotes
  | p :: rest =>
      match dlookup cur p with
      | none =>
          match addObsAt rest [] mk value now mname mdesc mnotes with
          | Except.ok (child, b) => Except.ok (dset cur p (PyVal.dict child), b)
          | Except.error e => Except.error e
      | some (PyVal.dict d) =>
          match addObsAt rest d mk value now mname mdesc mnotes with
          | Except.ok (d2, b) => Except.ok (dset cur p (PyVal.dict d2), b)
          | Except.error e => Except.error e
      | some _ => throw Err.typeError

/-- Source `add_observation`: split the dotted path, navigate/create the
interior nodes, create the leaf if needed, and append the observation only
when the value differs from the last stored one. The `source` argument is
accepted but never stored (as in the source). -/
def add_observation (timeline : List (String × PyVal)) (metric_path : String)
    (value : PyVal) (source : String) (notes metric_name metric_description : Option String)
    (now : String) : Except Err (List (String × PyVal) × Bool) :=
  let parts := splitDot metric_path
  match dlookup timeline "metrics" with
  | some (PyVal.dict m) =>
      match addObsAt parts.dropLast m (parts.getLastD "") value now
          metric_name metric_description notes with
      | Except.ok (m2, b) => Except.ok (dset timeline "metrics" (PyVal.dict m2), b)
      | Except.error e => Except.error e
  | some _ => throw Err.typeError
  | none => throw Err.keyError

/-- The default `journals` group installed by `setdefault` in
`add_journal_observation`. -/
def default_journals : PyVal :=
  PyVal.dict [("description", PyVal.str "Partner journal statistics from Wikidata")]

/-- Source `add_journal_observation`, name step: `journal["name"]` is set
from `journal_name` only when `journal_name` is truthy and the key is
absent (first writer wins). -/
def jeSetName (je : List (String × PyVal)) (journal_name : Option String) :
    List (String × PyVal) :=
  if truthyOptStr journal_name && !(dmem je "name") then
    dset je "name" (PyVal.str (journal_name.getD "")) else je

/-- Source `add_journal_observation`, partner step: `journal["partner"]`
is set from `partner` only when truthy and absent. -/
def jeSetPartner (je : List (String × PyVal)) (partner : Option String) :
    List (String × PyVal) :=
  if truthyOptStr partner && !(dmem je "partner") then
    dset je "partner" (PyVal.str (partner.getD "")) else je

/-- Source `add_journal_observation`, metric-type step:
`journal[metric_type] = {"series": []}` when the key is absent. -/
def jeEnsureMetric (je : List (String × PyVal)) (metric_type : String) :
    List (String × PyVal) :=
  if dmem je metric_type then je
  else dset je metric_type (PyVal.dict [("series", PyVal.list [])])

/-- The entry-level body of `add_journal_observation`: set `name` and
`partner` (first writer wins), ensure the metric-type leaf, then compare
with the last stored value and append or suppress exactly as
`add_observation` does. Returns the updated journal entry and the bool. -/
def ajo_entry_step (je : List (String × PyVal)) (metric_type : String) (value : PyVal)
    (journal_name partner : Option String) (now : String) :
    Except Err (List (String × PyVal) × Bool) :=
  let je3 := jeEnsureMetric (jeSetPartner (jeSetName je journal_name) partner) metric_type
  match dlookup je3 metric_type with
  | some (PyVal.dict mt0) =>
      match dlookup mt0 "series" with
      | none =>
          Except.ok (dset je3 metric_type
            (PyVal.dict (dset mt0 "series" (PyVal.list [obsD now value]))), true)
      | some (PyVal.list xs) =>
          match xs.getLast? with
          | none =>
              Except.ok (dset je3 metric_type
                (PyVal.dict (dset mt0 "series" (PyVal.list [obsD now value]))), true)
          | some (PyVal.dict od) =>
              match dlookup od "v" with
              | some lv =>
                  if pyEq lv value then Except.ok (je3, false)
                  else
                    Except.ok (dset je3 metric_type
                      (PyVal.dict (dset mt0 "series"
                        (PyVal.list (xs ++ [obsD now value])))), true)
              | none => throw Err.keyError
          | some _ => throw Err.typeError
      | some sv => if truthy sv then throw Err.typeError else throw Err.attrError
  | some _ => throw Err.attrError
  | none => throw Err.keyError

/-- Re-assembly of the timeline after the in-place mutation of the journal
entry (Python mutates through aliases; functionally this rebuilds the
spine `metrics → wikidata → journals → qid`). -/
def assembleTl (tl m wd1 js1 : List (String × PyVal)) (qid : String)
    (jeF : List (String × PyVal)) : List (String × PyVal) :=
  dset tl "metrics" (PyVal.dict (dset m "wikidata" (PyVal.dict (dset wd1 "journals"
    (PyVal.dict (dset js1 qid (PyVal.dict jeF)))))))

/-- Source `add_journal_observation`: record under
`wikidata.journals.<qid>.<metric_type>`; `name` and `partner` are set only
when absent; change detection matches `add_observation`. -/
def add_journal_observation (timeline : List (String × PyVal)) (qid metric_type : String)
    (value : PyVal) (journal_name partner : Option String) (now : String) :
    Except Err (List (String × PyVal) × Bool) :=
  match dlookup timeline "metrics" with
  | none => throw Err.keyError
  | some (PyVal.dict m) =>
      match dlookup m "wikidata" with
      | none => throw Err.keyError
      | some (PyVal.dict wd) =>
          let wd1 := if dmem wd "journals" then wd else dset wd "journals" default_journals
          match dlookup wd1 "journals" with
          | some (PyVal.dict js) =>
              let js1 :=
                match dlookup js qid with
                | some (PyVal.dict _) => js
                | _ => dset js qid (PyVal.dict [])
              match dlookup js1 qid with
              | some (PyVal.dict je) =>
                  match ajo_entry_step je metric_type value journal_name partner now with
                  | Except.ok (jeF, b) =>
                      Except.ok (assembleTl timeline m wd1 js1 qid jeF, b)
                  | Except.error e => Except.error e
              | _ => throw Err.typeError
          | some _ => throw Err.typeError
          | none => throw Err.keyError
      | some _ => throw Err.attrError
  | some _ => throw Err.typeError

/-- Descent loop of `get_metric_series`: a missing key at a dict yields
`[]`; Python `in` on a string/list either yields `[]` or raises when the
subsequent indexing is attempted; the final node answers `.get("series", [])`. -/
def getSeriesAux : List String → PyVal → Except Err PyVal
  | [], cur =>
      match cur with
      | PyVal.dict d => pure ((dlookup d "series").getD (PyVal.list []))
      | _ => throw Err.attrError
  | p :: rest, cur =>
      match cur with
      | PyVal.dict d =>
          match dlookup d p with
          | none => pure (PyVal.list [])
          | some v => getSeriesAux rest v
      | PyVal.str s =>
          if strContains p s then throw Err.typeError else pure (PyVal.list [])
      | PyVal.list xs =>
          if xs.any (fun x => pyEq (PyVal.str p) x) then throw Err.typeError
          else pure (PyVal.list [])
      | _ => throw Err.typeError

/-- Source `get_metric_series`: descend the dotted path from
`timeline["metrics"]`, returning `[]` when a segment is missing. -/
def get_metric_series (timeline : List (String × PyVal)) (metric_path : String) :
    Except Err PyVal :=
  match dlookup timeline "metrics" with
  | some mv => getSeriesAux (splitDot metric_path) mv
  | none => throw Err.keyError

/-- Source `get_latest_value`: `series[-1]["v"] if series else None`. -/
def get_latest_value (timeline : List (String × PyVal)) (metric_path : String) :
    Except Err PyVal :=
  match get_metric_series timeline metric_path with
  | Except.error e => Except.error e
  | Except.ok s =>
      if truthy s then
        match s with
        | PyVal.list xs =>
            match xs.getLast? with
            | some (PyVal.dict od) =>
                match dlookup od "v" with
                | some v => pure v
                | none => throw Err.keyError
            | some _ => throw Err.typeError
            | none => throw Err.typeError
        | PyVal.dict _ => throw Err.keyError
        | _ => throw Err.typeError
      else pure PyVal.null

/-- The keys skipped by `collect_metrics` when recursing. -/
def attrSkip : List String := ["description", "name", "notes", "unit", "partner"]

/-- Source inner `collect_metrics` of `get_all_latest_metrics`: walk the
tree in insertion order, skip the descriptive keys, emit an entry for each
dict child with a truthy `series`, recurse otherwise; `latest` is the
accumulated result dict. -/
def collect_metrics : List (String × PyVal) → String → List (String × PyVal) →
    Except Err (List (String × PyVal))
  | [], _, latest => pure latest
  | (key, v) :: rest, path, latest =>
      if key ∈ attrSkip then collect_metrics rest path latest
      else
        let current_path := if path = "" then key else path ++ "." ++ key
        match v with
        | PyVal.dict d =>
            (match dlookup d "series" with
             | some sv =>
                 if truthy sv then
                   match sv with
                   | PyVal.list xs =>
                       (match xs.getLast? with
                        | some (PyVal.dict od) =>
                            (match dlookup od "v", dlookup od "t" with
                             | some vv, some tt =>
                                 collect_metrics rest path
                                   (dset latest current_path
                                     (PyVal.dict [("value", vv), ("timestamp", tt),
                                       ("name", (dlookup d "name").getD (PyVal.str key))]))
                             | some _, none => throw Err.keyError
                             | none, _ => throw Err.keyError)
                        | some _ => throw Err.typeError
                        | none => throw Err.typeError)
                   | PyVal.dict _ => throw Err.keyError
                   | _ => throw Err.typeError
                 else
                   match collect_metrics d current_path latest with
                   | Except.ok latest2 => collect_metrics rest path latest2
                   | Except.error e => Except.error e
             | none =>
                 match collect_metrics d current_path latest with
                 | Except.ok latest2 => collect_metrics rest path latest2
                 | Except.error e => Except.error e)
        | _ => collect_metrics rest path latest
  termination_by items _ _ => sizeOf items
  decreasing_by all_goals (simp_wf <;> omega)

/-- Source `get_all_latest_metrics`: flattened latest-value view built by
`collect_metrics` starting from `timeline["metrics"]` and an empty path. -/
def get_all_latest_metrics (timeline : List (String × PyVal)) :
    Except Err (List (String × PyVal)) :=
  match dlookup timeline "metrics" with
  | some (PyVal.dict m) => collect_metrics m "" []
  | some _ => throw Err.attrError
  | none => throw Err.keyError

/-! ## Association-list (Python dict) lemmas -/

theorem dlookup_dset_self {α : Type} (d : List (String × α)) (k : String) (v : α) :
    dlookup (dset d k v) k = some v := by
  induction d with
  | nil => simp [dset, dlookup]
  | cons kv rest ih =>
      obtain ⟨k1, v1⟩ := kv
      by_cases h : k1 = k <;> simp [dset, dlookup, h, ih]

theorem dlookup_dset_ne {α : Type} (d : List (String × α)) (k k1 : String) (v : α)
    (h : k1 ≠ k) : dlookup (dset d k v) k1 = dlookup d k1 := by
  have hk : ¬ (k = k1) := fun hkk => h hkk.symm
  induction d with
  | nil => simp [dset, dlookup, hk]
  | cons kv rest ih =>
      obtain ⟨k2, v2⟩ := kv
      by_cases h2 : k2 = k
      · subst h2
        simp [dset, dlookup, hk]
      · by_cases h3 : k2 = k1 <;> simp [dset, dlookup, h2, h3, h, ih]

theorem dset_dset_self {α : Type} (d : List (String × α)) (k : String) (v w : α) :
    dset (dset d k v) k w = dset d k w := by
  induction d with
  | nil => simp [dset]
  | cons kv rest ih =>
      obtain ⟨k1, v1⟩ := kv
      by_cases h : k1 = k <;> simp [dset, h, ih]

theorem dset_eq_self {α : Type} (d : List (String × α)) (k : String) (v : α)
    (h : dlookup d k = some v) : dset d k v = d := by
  induction d with
  | nil => simp [dlookup] at h
  | cons kv rest ih =>
      obtain ⟨k1, v1⟩ := kv
      by_cases h1 : k1 = k
      · subst h1
        simp [dlookup] at h
        simp [dset, h]
      · simp [dlookup, h1] at h
        simp [dset, h1, ih h]

theorem dmem_dset {α : Type} (d : List (String × α)) (k k1 : String) (v : α) :
    dmem (dset d k v) k1 = (k1 = k || dmem d k1) := by
  by_cases h : k1 = k
  · subst h
    simp [dmem, dlookup_dset_self]
  · simp [dmem, dlookup_dset_ne d k k1 v h, h]

theorem dlookup_mem {α : Type} {d : List (String × α)} {k : String} {v : α}
    (h : dlookup d k = some v) : (k, v) ∈ d := by
  induction d with
  | nil => simp [dlookup] at h
  | cons kv rest ih =>
      obtain ⟨k1, v1⟩ := kv
      by_cases h1 : k1 = k
      · subst h1
        simp [dlookup] at h
        simp [h]
      · simp [dlookup, h1] at h
        simp [ih h]

/-! ## C3: acceptance criterion of load_timeline -/

/-- Observer: the `metadata.version` field of a parsed document. -/
def versionOf (v : PyVal) : Option PyVal :=
  match v with
  | PyVal.dict d =>
      match dlookup d "metadata" with
      | some (PyVal.dict md) => dlookup md "version"
      | _ => none
  | _ => none

/-- A stored document with `metadata` and `metrics` keys but version "1.0". -/
def c3doc : PyVal :=
  PyVal.dict [("metadata", PyVal.dict [("version", PyVal.str "1.0")]),
              ("metrics", PyVal.dict [])]

/-- C3 counterexample: a parsed document whose `metadata.version` is
`"1.0"` (not `"2.0"`) is nevertheless accepted by `load_timeline` and
returned unchanged, refuting the claim that acceptance requires
`metadata.version = "2.0"`. -/
theorem c3_counterexample :
    load_timeline (some c3doc) "T1" = Except.ok c3doc ∧
    versionOf c3doc = some (PyVal.str "1.0") ∧
    versionOf c3doc ≠ some (PyVal.str "2.0") := by
  refine ⟨rfl, rfl, ?_⟩
  simp [versionOf, c3doc, dlookup]

/-- C3 amended: `load_timeline` accepts a parsed JSON object iff it has
both top-level keys `"metadata"` and `"metrics"`; the version string is
never examined. Any object missing either key is replaced by the freshly
constructed empty document. -/
theorem c3_amended (d : List (String × PyVal)) (now : String) :
    load_timeline (some (PyVal.dict d)) now =
      Except.ok (if dmem d "metadata" && dmem d "metrics" then PyVal.dict d
                 else PyVal.dict (create_empty_timeline now)) := by
  cases h1 : dmem d "metadata" <;> cases h2 : dmem d "metrics" <;>
    simp [load_timeline, pyContains, h1, h2, pure, Except.pure]

/-! ## C4: no path validation in add_observation -/

/-- A minimal timeline document: just an empty `metrics` dict. -/
def c4tl : List (String × PyVal) := [("metrics", PyVal.dict [])]

/-- C4 counterexample: calling `add_observation` with the empty-string
path raises nothing: it returns `true` and silently creates a root-level
empty-string key in the metrics tree, refuting the claimed InvalidArgument
failure. -/
theorem c4_counterexample :
    add_observation c4tl "" (PyVal.int 5) "src" none none none "T1" =
      Except.ok ([("metrics", PyVal.dict
        [("", PyVal.dict
           [("series", PyVal.list [PyVal.dict [("t", PyVal.str "T1"), ("v", PyVal.int 5)]]),
            ("unit", PyVal.str "count")])])], true) ∧
    dmem [("", PyVal.dict
           [("series", PyVal.list [PyVal.dict [("t", PyVal.str "T1"), ("v", PyVal.int 5)]]),
            ("unit", PyVal.str "count")])] "" = true :=
  ⟨rfl, rfl⟩

/-- C4 amended: `add_observation` performs no path validation. On any
document whose metrics tree lacks a root-level empty-string key, the
empty-string path is processed like any other single-segment path: a leaf
is silently created under the key `""` and the observation appended, with
no error surfaced. -/
theorem c4_amended (tl m : List (String × PyVal)) (v : PyVal) (src now : String)
    (notes mn md : Option String)
    (hm : dlookup tl "metrics" = some (PyVal.dict m)) (h0 : dlookup m "" = none) :
    add_observation tl "" v src notes mn md now =
      Except.ok (dset tl "metrics" (PyVal.dict (dset m ""
        (PyVal.dict (dset (newLeaf mn md notes) "series"
          (PyVal.list [obsD now v]))))), true) := by
  simp [add_observation, splitDot, splitDotAux, hm, addObsAt, finalStep, h0, pure,
    Except.pure]

/-- C4 witness: the amended theorem applied at the minimal concrete
document. -/
theorem c4_witness :
    add_observation c4tl "" (PyVal.int 7) "src" none none none "T2" =
      Except.ok (dset c4tl "metrics" (PyVal.dict (dset [] ""
        (PyVal.dict (dset (newLeaf none none none) "series"
          (PyVal.list [obsD "T2" (PyVal.int 7)]))))), true) :=
  c4_amended c4tl [] (PyVal.int 7) "src" "T2" none none none rfl rfl

/-! ## C5: cross-type behavior of the suppression equality -/

/-- A timeline whose metric `a` has last stored value the number `0`. -/
def c5tl : List (String × PyVal) :=
  [("metrics", PyVal.dict
    [("a", PyVal.dict [("series", PyVal.list [obsD "T0" (PyVal.int 0)])])])]

/-- C5 counterexample: recording the boolean `False` over a stored number
`0` is suppressed (`0 == False` in Python), so a value of a different
primitive type than the last stored sample does not always append,
refuting the claimed absence of number/boolean coercion. -/
theorem c5_counterexample :
    add_observation c5tl "a" (PyVal.bool false) "src" none none none "T1" =
      Except.ok (c5tl, false) ∧
    pyEq (PyVal.int 0) (PyVal.bool false) = true :=
  ⟨rfl, rfl⟩

/-- C5 amended: the suppression test `pyEq` of `add_observation` has no
coercion between numbers and strings or null (`0` is never equal to `"0"`
or to `None`; `None` equals only `None`; strings compare by exact match;
numbers numerically), but booleans compare numerically with numbers:
`0 == False` and `1 == True`, so recording a boolean whose numeric value
equals the stored number is suppressed rather than appended. -/
theorem c5_amended :
    (pyEq PyVal.null PyVal.null = true) ∧
    (∀ m n : Int, pyEq (PyVal.int m) (PyVal.int n) = (m == n)) ∧
    (∀ a b : String, pyEq (PyVal.str a) (PyVal.str b) = (a == b)) ∧
    (∀ (n : Int) (s : String),
      pyEq (PyVal.int n) (PyVal.str s) = false ∧
      pyEq (PyVal.str s) (PyVal.int n) = false) ∧
    (∀ n : Int, pyEq (PyVal.int n) PyVal.null = false ∧
      pyEq PyVal.null (PyVal.int n) = false) ∧
    (∀ s : String, pyEq (PyVal.str s) PyVal.null = false ∧
      pyEq PyVal.null (PyVal.str s) = false) ∧
    (∀ (b : Bool) (s : String),
      pyEq (PyVal.bool b) (PyVal.str s) = false ∧
      pyEq (PyVal.str s) (PyVal.bool b) = false) ∧
    (∀ (b : Bool) (n : Int),
      pyEq (PyVal.bool b) (PyVal.int n) = ((if b then (1 : Int) else 0) == n)) ∧
    (pyEq (PyVal.int 0) (PyVal.bool false) = true) ∧
    (pyEq (PyVal.int 1) (PyVal.bool true) = true) := by
  refine ⟨rfl, ?_, ?_, ?_, ?_, ?_, ?_, ?_, rfl, rfl⟩ <;> intros <;> simp [pyEq]

/-! ## C9: save_timeline mutates exactly metadata.last_updated -/

/-- C9: `save_timeline` stamps `metadata.last_updated` with the current
timestamp and changes nothing else: every top-level key other than
`metadata` (in particular the whole `metrics` tree with all its series)
is looked up unchanged, and every metadata field other than
`last_updated` is unchanged. -/
theorem c9_theorem (tl md : List (String × PyVal)) (now : String)
    (hmd : dlookup tl "metadata" = some (PyVal.dict md)) :
    ∃ tl2, save_timeline tl now = Except.ok tl2 ∧
      dlookup tl2 "metadata" =
        some (PyVal.dict (dset md "last_updated" (PyVal.str now))) ∧
      dlookup (dset md "last_updated" (PyVal.str now)) "last_updated" =
        some (PyVal.str now) ∧
      (∀ k, k ≠ "metadata" → dlookup tl2 k = dlookup tl k) ∧
      (∀ k, k ≠ "last_updated" →
        dlookup (dset md "last_updated" (PyVal.str now)) k = dlookup md k) ∧
      dlookup tl2 "metrics" = dlookup tl "metrics" := by
  refine ⟨dset tl "metadata" (PyVal.dict (dset md "last_updated" (PyVal.str now))),
    ?_, ?_, ?_, ?_, ?_, ?_⟩
  · simp [save_timeline, hmd, pure, Except.pure]
  · exact dlookup_dset_self tl "metadata" _
  · exact dlookup_dset_self md "last_updated" _
  · intro k hk
    exact dlookup_dset_ne tl "metadata" k _ hk
  · intro k hk
    exact dlookup_dset_ne md "last_updated" k _ hk
  · exact dlookup_dset_ne tl "metadata" "metrics" _ (by decide)

/-- C9 witness: the frame property evaluated on the fresh empty document. -/
theorem c9_witness :
    ∃ tl2, save_timeline (create_empty_timeline "T0") "T5" = Except.ok tl2 ∧
      dlookup tl2 "metadata" =
        some (PyVal.dict (dset
          [("created", PyVal.str "T0"), ("last_updated", PyVal.null),
           ("version", PyVal.str "2.0"),
           ("description", PyVal.str "KOMET project evaluation metrics timeline")]
          "last_updated" (PyVal.str "T5"))) ∧
      dlookup (dset
          [("created", PyVal.str "T0"), ("last_updated", PyVal.null),
           ("version", PyVal.str "2.0"),
           ("description", PyVal.str "KOMET project evaluation metrics timeline")]
          "last_updated" (PyVal.str "T5")) "last_updated" = some (PyVal.str "T5") ∧
      (∀ k, k ≠ "metadata" →
        dlookup tl2 k = dlookup (create_empty_timeline "T0") k) ∧
      (∀ k, k ≠ "last_updated" →
        dlookup (dset
          [("created", PyVal.str "T0"), ("last_updated", PyVal.null),
           ("version", PyVal.str "2.0"),
           ("description", PyVal.str "KOMET project evaluation metrics timeline")]
          "last_updated" (PyVal.str "T5")) k =
        dlookup
          [("created", PyVal.str "T0"), ("last_updated", PyVal.null),
           ("version", PyVal.str "2.0"),
           ("description", PyVal.str "KOMET project evaluation metrics timeline")] k) ∧
      dlookup tl2 "metrics" = dlookup (create_empty_timeline "T0") "metrics" :=
  c9_theorem (create_empty_timeline "T0") _ "T5" rfl

/-! ## C6: load after save round trip -/

/-- C6: for any document with a `metadata` dict and a `metrics` key,
`load_timeline` applied to the output of `save_timeline` accepts and
returns the saved document unchanged, and that document differs from the
original only in `metadata.last_updated` (which `save_timeline` stamps):
all other top-level keys — in particular the whole metrics tree with its
series contents and order — and all other metadata fields are unchanged. -/
theorem c6_theorem (tl md : List (String × PyVal)) (now now2 : String)
    (hmd : dlookup tl "metadata" = some (PyVal.dict md))
    (hms : dmem tl "metrics" = true) :
    ∃ tl2, save_timeline tl now = Except.ok tl2 ∧
      load_timeline (some (PyVal.dict tl2)) now2 = Except.ok (PyVal.dict tl2) ∧
      dlookup tl2 "metadata" =
        some (PyVal.dict (dset md "last_updated" (PyVal.str now))) ∧
      (∀ k, k ≠ "metadata" → dlookup tl2 k = dlookup tl k) ∧
      (∀ k, k ≠ "last_updated" →
        dlookup (dset md "last_updated" (PyVal.str now)) k = dlookup md k) := by
  refine ⟨dset tl "metadata" (PyVal.dict (dset md "last_updated" (PyVal.str now))),
    ?_, ?_, ?_, ?_, ?_⟩
  · simp [save_timeline, hmd, pure, Except.pure]
  · have h1 : dmem (dset tl "metadata"
        (PyVal.dict (dset md "last_updated" (PyVal.str now)))) "metadata" = true := by
      simp [dmem_dset]
    have h2 : dmem (dset tl "metadata"
        (PyVal.dict (dset md "last_updated" (PyVal.str now)))) "metrics" = true := by
      simp [dmem_dset, hms]
    simp [load_timeline, pyContains, h1, h2, pure, Except.pure]
  · exact dlookup_dset_self tl "metadata" _
  · intro k hk
    exact dlookup_dset_ne tl "metadata" k _ hk
  · intro k hk
    exact dlookup_dset_ne md "last_updated" k _ hk

/-- C6 witness: the round trip evaluated on the fresh empty document. -/
theorem c6_witness :
    ∃ tl2, save_timeline (create_empty_timeline "T0") "T5" = Except.ok tl2 ∧
      load_timeline (some (PyVal.dict tl2)) "T9" = Except.ok (PyVal.dict tl2) ∧
      dlookup tl2 "metadata" =
        some (PyVal.dict (dset
          [("created", PyVal.str "T0"), ("last_updated", PyVal.null),
           ("version", PyVal.str "2.0"),
           ("description", PyVal.str "KOMET project evaluation metrics timeline")]
          "last_updated" (PyVal.str "T5"))) ∧
      (∀ k, k ≠ "metadata" →
        dlookup tl2 k = dlookup (create_empty_timeline "T0") k) ∧
      (∀ k, k ≠ "last_updated" →
        dlookup (dset
          [("created", PyVal.str "T0"), ("last_updated", PyVal.null),
           ("version", PyVal.str "2.0"),
           ("description", PyVal.str "KOMET project evaluation metrics timeline")]
          "last_updated" (PyVal.str "T5")) k =
        dlookup
          [("created", PyVal.str "T0"), ("last_updated", PyVal.null),
           ("version", PyVal.str "2.0"),
           ("description", PyVal.str "KOMET project evaluation metrics timeline")] k) :=
  c6_theorem (create_empty_timeline "T0") _ "T5" "T9" rfl rfl

/-! ## C10: hybrid nodes — flatten does not recurse into a leaf -/

set_option maxRecDepth 4000 in
/-- C10: starting from a document with a leaf at key `k` holding a
non-empty series, calling `add_observation` with a two-segment path
`k.c` extends the leaf with a nested metric at child key `c` (a hybrid
node); `get_all_latest_metrics` on the resulting document emits exactly
the entry for `k` (last observation of the outer series) and does not
recurse into the leaf, so the nested metric path `k.c` is absent. -/
theorem c10_theorem (path k c : String) (xs : List PyVal) (t1 : String)
    (v1 v2 : PyVal) (src now : String)
    (hs : splitDot path = [k, c])
    (hk : ¬ k ∈ attrSkip)
    (hcn : c ≠ "name")
    (hcs : c ≠ "series") :
    add_observation
      [("metrics", PyVal.dict
        [(k, PyVal.dict [("series",
           PyVal.list (xs ++ [PyVal.dict [("t", PyVal.str t1), ("v", v1)]]))])])]
      path v2 src none none none now =
      Except.ok ([("metrics", PyVal.dict
        [(k, PyVal.dict
          [("series",
            PyVal.list (xs ++ [PyVal.dict [("t", PyVal.str t1), ("v", v1)]])),
           (c, PyVal.dict [("series", PyVal.list [obsD now v2]),
                           ("unit", PyVal.str "count")])])])], true) ∧
    get_all_latest_metrics
      [("metrics", PyVal.dict
        [(k, PyVal.dict
          [("series",
            PyVal.list (xs ++ [PyVal.dict [("t", PyVal.str t1), ("v", v1)]])),
           (c, PyVal.dict [("series", PyVal.list [obsD now v2]),
                           ("unit", PyVal.str "count")])])])] =
      Except.ok [(k, PyVal.dict
        [("value", v1), ("timestamp", PyVal.str t1), ("name", PyVal.str k)])] ∧
    dlookup [(k, PyVal.dict
        [("value", v1), ("timestamp", PyVal.str t1), ("name", PyVal.str k)])]
      (k ++ "." ++ c) = none := by
  have hsc : ¬ ("series" = c) := fun h => hcs h.symm
  have hnc : ¬ (c = "name") := hcn
  have hkc : ¬ (k = k ++ "." ++ c) := by
    intro h
    have hlen := congrArg String.length h
    rw [String.length_append, String.length_append] at hlen
    have hdot : (".").length = 1 := rfl
    omega
  refine ⟨?_, ?_, ?_⟩
  · simp only [add_observation, hs]
    simp only [List.dropLast, List.getLastD]
    simp only [dlookup, if_pos rfl]
    simp [addObsAt, dlookup, finalStep, hsc, newLeaf, truthyOptStr, dset, obsD,
      pure, Except.pure]
  · simp [get_all_latest_metrics, collect_metrics, hk, dlookup, hsc, hnc,
      truthy, List.getLast?_concat, dset, pure, Except.pure]
  · simp [dlookup, hkc]

/-- C10 witness: the hybrid scenario at the concrete path `"a.b"`. -/
theorem c10_witness :
    add_observation
      [("metrics", PyVal.dict
        [("a", PyVal.dict [("series",
           PyVal.list ([] ++ [PyVal.dict [("t", PyVal.str "T0"), ("v", PyVal.int 1)]]))])])]
      "a.b" (PyVal.int 2) "src" none none none "T1" =
      Except.ok ([("metrics", PyVal.dict
        [("a", PyVal.dict
          [("series",
            PyVal.list ([] ++ [PyVal.dict [("t", PyVal.str "T0"), ("v", PyVal.int 1)]])),
           ("b", PyVal.dict [("series", PyVal.list [obsD "T1" (PyVal.int 2)]),
                           ("unit", PyVal.str "count")])])])], true) ∧
    get_all_latest_metrics
      [("metrics", PyVal.dict
        [("a", PyVal.dict
          [("series",
            PyVal.list ([] ++ [PyVal.dict [("t", PyVal.str "T0"), ("v", PyVal.int 1)]])),
           ("b", PyVal.dict [("series", PyVal.list [obsD "T1" (PyVal.int 2)]),
                           ("unit", PyVal.str "count")])])])] =
      Except.ok [("a", PyVal.dict
        [("value", PyVal.int 1), ("timestamp", PyVal.str "T0"),
         ("name", PyVal.str "a")])] ∧
    dlookup [("a", PyVal.dict
        [("value", PyVal.int 1), ("timestamp", PyVal.str "T0"),
         ("name", PyVal.str "a")])]
      ("a" ++ "." ++ "b") = none :=
  c10_theorem "a.b" "a" "b" [] "T0" (PyVal.int 1) (PyVal.int 2) "src" "T1"
    rfl (by decide) (by decide) (by decide)

/-! ## C8: behavior of get_metric_series / get_latest_value on absent paths -/

/-- Outcome of resolving a dotted path by descending only through dict
nodes: the path either fails at a missing key or lands on a dict. -/
inductive ResolveRes where
  | missing : ResolveRes
  | atDict (d : List (String × PyVal)) : ResolveRes

/-- Resolve a segment list from a dict root, descending only through
dicts; `none` when a traversed value is not a dict. -/
def dictResolve (d : List (String × PyVal)) : List String → Option ResolveRes
  | [] => some (ResolveRes.atDict d)
  | p :: rest =>
      match dlookup d p with
      | none => some ResolveRes.missing
      | some (PyVal.dict d2) => dictResolve d2 rest
      | some _ => none

/-- C8 counterexample: on the store's own fresh empty document the path
`"wikidata.description"` does not resolve to a leaf, yet both
`get_metric_series` and `get_latest_value` raise (`AttributeError`:
`.get` on the description string) instead of returning empty/absent. -/
theorem c8_counterexample :
    get_metric_series (create_empty_timeline "T0") "wikidata.description" =
      Except.error Err.attrError ∧
    get_latest_value (create_empty_timeline "T0") "wikidata.description" =
      Except.error Err.attrError :=
  ⟨rfl, rfl⟩

theorem getSeriesAux_missing (parts : List String) (d : List (String × PyVal))
    (h : dictResolve d parts = some ResolveRes.missing) :
    getSeriesAux parts (PyVal.dict d) = Except.ok (PyVal.list []) := by
  induction parts generalizing d with
  | nil => simp [dictResolve] at h
  | cons p rest ih =>
      simp only [dictResolve] at h
      cases hl : dlookup d p with
      | none => simp [getSeriesAux, hl, pure, Except.pure]
      | some v =>
          rw [hl] at h
          cases v with
          | dict d2 =>
              simp only [getSeriesAux, hl]
              exact ih d2 h
          | null => simp at h
          | bool b => simp at h
          | int n => simp at h
          | str s => simp at h
          | list xs => simp at h

theorem getSeriesAux_atDict (parts : List String) (d ld : List (String × PyVal))
    (h : dictResolve d parts = some (ResolveRes.atDict ld)) :
    getSeriesAux parts (PyVal.dict d) =
      Except.ok ((dlookup ld "series").getD (PyVal.list [])) := by
  induction parts generalizing d with
  | nil =>
      simp only [dictResolve, Option.some.injEq, ResolveRes.atDict.injEq] at h
      subst h
      simp [getSeriesAux, pure, Except.pure]
  | cons p rest ih =>
      simp only [dictResolve] at h
      cases hl : dlookup d p with
      | none => rw [hl] at h; simp at h
      | some v =>
          rw [hl] at h
          cases v with
          | dict d2 =>
              simp only [getSeriesAux, hl]
              exact ih d2 h
          | null => simp at h
          | bool b => simp at h
          | int n => simp at h
          | str s => simp at h
          | list xs => simp at h

/-- C8 amended: whenever the dotted path resolves within dict nodes and
either misses a key or lands on a node with no `series` key (in
particular whenever it does not resolve to an existing leaf while staying
inside the tree), `get_metric_series` returns the empty list and
`get_latest_value` returns null, with no error. (A path that reaches a
non-dict value, such as a `description` string, raises instead — see the
counterexample.) -/
theorem c8_amended (tl m : List (String × PyVal)) (path : String)
    (hm : dlookup tl "metrics" = some (PyVal.dict m))
    (hres : dictResolve m (splitDot path) = some ResolveRes.missing ∨
            ∃ ld, dictResolve m (splitDot path) = some (ResolveRes.atDict ld) ∧
                  dlookup ld "series" = none) :
    get_metric_series tl path = Except.ok (PyVal.list []) ∧
    get_latest_value tl path = Except.ok PyVal.null := by
  have hser : get_metric_series tl path = Except.ok (PyVal.list []) := by
    cases hres with
    | inl h =>
        simp only [get_metric_series, hm]
        exact getSeriesAux_missing _ m h
    | inr h =>
        obtain ⟨ld, hld, hns⟩ := h
        simp only [get_metric_series, hm]
        rw [getSeriesAux_atDict _ m ld hld, hns]
        rfl
  refine ⟨hser, ?_⟩
  simp [get_latest_value, hser, truthy, pure, Except.pure]

/-- C8 witness: a missing top-level path on the fresh empty document
yields empty series and null latest value. -/
theorem c8_witness :
    get_metric_series (create_empty_timeline "T0") "nope.x" =
      Except.ok (PyVal.list []) ∧
    get_latest_value (create_empty_timeline "T0") "nope.x" =
      Except.ok PyVal.null :=
  c8_amended (create_empty_timeline "T0")
    [("wikidata", PyVal.dict
        [("description", PyVal.str "Wikidata scholarly graph metrics"),
         ("journals", PyVal.dict
            [("description", PyVal.str "Partner journal statistics from Wikidata")])]),
     ("opencitations", PyVal.dict
        [("description", PyVal.str "OpenCitations crowdsourcing metrics")])]
    "nope.x" rfl (Or.inl rfl)


/-! ## C7: first-writer-wins for journal name -/

theorem dlookup_ifdset_ne {α : Type} (d : List (String × α)) (c : Bool) (k k2 : String)
    (v : α) (h : k2 ≠ k) :
    dlookup (if c then dset d k v else d) k2 = dlookup d k2 := by
  cases c with
  | true => simpa using dlookup_dset_ne d k k2 v h
  | false => rfl

theorem dlookup_ifdset_self {α : Type} (d : List (String × α)) (c : Bool) (k : String)
    (v : α) :
    dlookup (if c then dset d k v else d) k = if c then some v else dlookup d k := by
  cases c <;> simp [dlookup_dset_self]

theorem jeSetName_name (je : List (String × PyVal)) (jn : Option String) :
    dlookup (jeSetName je jn) "name" =
      (if truthyOptStr jn && !(dmem je "name") then some (PyVal.str (jn.getD ""))
       else dlookup je "name") := by
  unfold jeSetName
  exact dlookup_ifdset_self je _ "name" _

theorem jeSetName_ne (je : List (String × PyVal)) (jn : Option String) (k : String)
    (h : k ≠ "name") : dlookup (jeSetName je jn) k = dlookup je k := by
  unfold jeSetName
  exact dlookup_ifdset_ne je _ "name" k _ h

theorem jeSetPartner_ne (je : List (String × PyVal)) (pr : Option String) (k : String)
    (h : k ≠ "partner") : dlookup (jeSetPartner je pr) k = dlookup je k := by
  unfold jeSetPartner
  exact dlookup_ifdset_ne je _ "partner" k _ h

theorem jeEnsureMetric_self (je : List (String × PyVal)) (mt : String) :
    dlookup (jeEnsureMetric je mt) mt =
      some ((dlookup je mt).getD (PyVal.dict [("series", PyVal.list [])])) := by
  unfold jeEnsureMetric
  cases h : dlookup je mt with
  | none => simp [dmem, h, dlookup_dset_self]
  | some x => simp [dmem, h]

theorem jeEnsureMetric_ne (je : List (String × PyVal)) (mt k : String) (h : k ≠ mt) :
    dlookup (jeEnsureMetric je mt) k = dlookup je k := by
  unfold jeEnsureMetric
  cases hm : dmem je mt with
  | true => simp
  | false => simp [dlookup_dset_ne je mt k _ h]

theorem ajo_entry_ok (je : List (String × PyVal)) (mt : String) (v : PyVal)
    (jn pr : Option String) (now : String)
    (hmtn : mt ≠ "name") (hmtp : mt ≠ "partner")
    (hslot : dlookup je mt = none ∨
      ∃ mtd xs, dlookup je mt = some (PyVal.dict mtd) ∧
        dlookup mtd "series" = some (PyVal.list xs) ∧
        (xs = [] ∨ ∃ od lv, xs.getLast? = some (PyVal.dict od) ∧
          dlookup od "v" = some lv)) :
    ∃ jeF b2, ajo_entry_step je mt v jn pr now = Except.ok (jeF, b2) ∧
      dlookup jeF "name" =
        (if truthyOptStr jn && !(dmem je "name") then some (PyVal.str (jn.getD ""))
         else dlookup je "name") ∧
      (∀ k, k ≠ "name" → k ≠ "partner" → k ≠ mt → dlookup jeF k = dlookup je k) ∧
      (∃ mtF xs2 od lv, dlookup jeF mt = some (PyVal.dict mtF) ∧
        dlookup mtF "series" = some (PyVal.list xs2) ∧
        xs2.getLast? = some (PyVal.dict od) ∧ dlookup od "v" = some lv) := by
  have hnm : ("name" : String) ≠ mt := fun h => hmtn h.symm
  have hname2 : dlookup (jeSetPartner (jeSetName je jn) pr) "name" =
      (if truthyOptStr jn && !(dmem je "name") then some (PyVal.str (jn.getD ""))
       else dlookup je "name") := by
    rw [jeSetPartner_ne _ _ _ (by decide), jeSetName_name]
  have h2mt : dlookup (jeSetPartner (jeSetName je jn) pr) mt = dlookup je mt := by
    rw [jeSetPartner_ne _ _ _ hmtp, jeSetName_ne _ _ _ hmtn]
  have h3mt : dlookup (jeEnsureMetric (jeSetPartner (jeSetName je jn) pr) mt) mt =
      some ((dlookup je mt).getD (PyVal.dict [("series", PyVal.list [])])) := by
    rw [jeEnsureMetric_self, h2mt]
  have h3name : dlookup (jeEnsureMetric (jeSetPartner (jeSetName je jn) pr) mt) "name" =
      (if truthyOptStr jn && !(dmem je "name") then some (PyVal.str (jn.getD ""))
       else dlookup je "name") := by
    rw [jeEnsureMetric_ne _ _ _ hnm, hname2]
  have h3frame : ∀ k, k ≠ "name" → k ≠ "partner" → k ≠ mt →
      dlookup (jeEnsureMetric (jeSetPartner (jeSetName je jn) pr) mt) k = dlookup je k := by
    intro k hk1 hk2 hk3
    rw [jeEnsureMetric_ne _ _ _ hk3, jeSetPartner_ne _ _ _ hk2, jeSetName_ne _ _ _ hk1]
  rcases hslot with h0 | ⟨mtd, xs, hmt, hser, hlast⟩
  · rw [h0] at h3mt
    refine ⟨dset (jeEnsureMetric (jeSetPartner (jeSetName je jn) pr) mt) mt
      (PyVal.dict (dset [("series", PyVal.list [])] "series"
        (PyVal.list [obsD now v]))), true, ?_, ?_, ?_, ?_⟩
    · simp [ajo_entry_step, h3mt, dlookup]
    · rw [dlookup_dset_ne _ _ _ _ hnm, h3name]
    · intro k hk1 hk2 hk3
      rw [dlookup_dset_ne _ _ _ _ hk3, h3frame k hk1 hk2 hk3]
    · refine ⟨[("series", PyVal.list [obsD now v])], [obsD now v],
        [("t", PyVal.str now), ("v", v)], v, ?_, ?_, ?_, ?_⟩
      · rw [dlookup_dset_self]
        simp [dset]
      · simp [dlookup]
      · simp [obsD]
      · simp [dlookup]
  · rw [hmt] at h3mt
    simp only [Option.getD_some] at h3mt
    rcases hlast with hxs | ⟨od, lv, hl, hv⟩
    · subst hxs
      refine ⟨dset (jeEnsureMetric (jeSetPartner (jeSetName je jn) pr) mt) mt
        (PyVal.dict (dset mtd "series" (PyVal.list [obsD now v]))), true, ?_, ?_, ?_, ?_⟩
      · simp [ajo_entry_step, h3mt, hser]
      · rw [dlookup_dset_ne _ _ _ _ hnm, h3name]
      · intro k hk1 hk2 hk3
        rw [dlookup_dset_ne _ _ _ _ hk3, h3frame k hk1 hk2 hk3]
      · refine ⟨dset mtd "series" (PyVal.list [obsD now v]), [obsD now v],
          [("t", PyVal.str now), ("v", v)], v, ?_, ?_, ?_, ?_⟩
        · rw [dlookup_dset_self]
        · rw [dlookup_dset_self]
        · simp [obsD]
        · simp [dlookup]
    · by_cases hpe : pyEq lv v = true
      · refine ⟨jeEnsureMetric (jeSetPartner (jeSetName je jn) pr) mt, false,
          ?_, h3name, h3frame, ?_⟩
        · simp [ajo_entry_step, h3mt, hser, hl, hv, hpe]
        · exact ⟨mtd, xs, od, lv, h3mt, hser, hl, hv⟩
      · refine ⟨dset (jeEnsureMetric (jeSetPartner (jeSetName je jn) pr) mt) mt
          (PyVal.dict (dset mtd "series" (PyVal.list (xs ++ [obsD now v])))), true,
          ?_, ?_, ?_, ?_⟩
        · simp [ajo_entry_step, h3mt, hser, hl, hv, hpe]
        · rw [dlookup_dset_ne _ _ _ _ hnm, h3name]
        · intro k hk1 hk2 hk3
          rw [dlookup_dset_ne _ _ _ _ hk3, h3frame k hk1 hk2 hk3]
        · refine ⟨dset mtd "series" (PyVal.list (xs ++ [obsD now v])),
            xs ++ [obsD now v], [("t", PyVal.str now), ("v", v)], v, ?_, ?_, ?_, ?_⟩
          · rw [dlookup_dset_self]
          · rw [dlookup_dset_self]
          · simp [obsD, List.getLast?_concat]
          · simp [dlookup]

/-- Observer: the `name` attribute of the journal entry at
`metrics.wikidata.journals.<qid>`. -/
def journalNameOf (tl : List (String × PyVal)) (qid : String) : Option PyVal :=
  match dlookup tl "metrics" with
  | some (PyVal.dict m) =>
      match dlookup m "wikidata" with
      | some (PyVal.dict wd) =>
          match dlookup wd "journals" with
          | some (PyVal.dict js) =>
              match dlookup js qid with
              | some (PyVal.dict je) => dlookup je "name"
              | _ => none
          | _ => none
      | _ => none
  | _ => none

theorem journalNameOf_assembleTl (tl m wd1 js1 : List (String × PyVal)) (qid : String)
    (jeF : List (String × PyVal)) :
    journalNameOf (assembleTl tl m wd1 js1 qid jeF) qid = dlookup jeF "name" := by
  simp [journalNameOf, assembleTl, dlookup_dset_self]

theorem ajo_call (tl m wd js je : List (String × PyVal)) (qid mt : String) (v : PyVal)
    (jn pr : Option String) (now : String)
    (hm : dlookup tl "metrics" = some (PyVal.dict m))
    (hw : dlookup m "wikidata" = some (PyVal.dict wd))
    (hj : dlookup wd "journals" = some (PyVal.dict js))
    (hqe : (dlookup js qid = none ∧ je = []) ∨ dlookup js qid = some (PyVal.dict je))
    (hmtn : mt ≠ "name") (hmtp : mt ≠ "partner")
    (hslot : dlookup je mt = none ∨
      ∃ mtd xs, dlookup je mt = some (PyVal.dict mtd) ∧
        dlookup mtd "series" = some (PyVal.list xs) ∧
        (xs = [] ∨ ∃ od lv, xs.getLast? = some (PyVal.dict od) ∧
          dlookup od "v" = some lv)) :
    ∃ js1 jeF b2,
      add_journal_observation tl qid mt v jn pr now =
        Except.ok (assembleTl tl m wd js1 qid jeF, b2) ∧
      dlookup jeF "name" =
        (if truthyOptStr jn && !(dmem je "name") then some (PyVal.str (jn.getD ""))
         else dlookup je "name") ∧
      (∀ k, k ≠ "name" → k ≠ "partner" → k ≠ mt → dlookup jeF k = dlookup je k) ∧
      (∃ mtF xs2 od lv, dlookup jeF mt = some (PyVal.dict mtF) ∧
        dlookup mtF "series" = some (PyVal.list xs2) ∧
        xs2.getLast? = some (PyVal.dict od) ∧ dlookup od "v" = some lv) := by
  obtain ⟨jeF, b2, hstep, hname, hframe, hslotF⟩ :=
    ajo_entry_ok je mt v jn pr now hmtn hmtp hslot
  have hdm : dmem wd "journals" = true := by simp [dmem, hj]
  rcases hqe with ⟨hq, hje⟩ | hq
  · refine ⟨dset js qid (PyVal.dict []), jeF, b2, ?_, hname, hframe, hslotF⟩
    have hq1 : dlookup (dset js qid (PyVal.dict [])) qid = some (PyVal.dict je) := by
      rw [hje]
      exact dlookup_dset_self js qid _
    simp [add_journal_observation, hm, hw, hdm, hj, hq, hq1, hstep]
  · refine ⟨js, jeF, b2, ?_, hname, hframe, hslotF⟩
    simp [add_journal_observation, hm, hw, hdm, hj, hq, hstep]

/-- C7: once a journal entry's `name` has been set by the first
`add_journal_observation` call for a fresh `qid`, a second call for the
same `qid` with any (different) `journal_name` leaves `name` equal to the
value supplied by the first call — first writer wins. -/
theorem c7_theorem (tl m wd js : List (String × PyVal)) (qid mtype1 mtype2 : String)
    (v1 v2 : PyVal) (n1 : String) (p1 n2 p2 : Option String) (now1 now2 : String)
    (hm : dlookup tl "metrics" = some (PyVal.dict m))
    (hw : dlookup m "wikidata" = some (PyVal.dict wd))
    (hj : dlookup wd "journals" = some (PyVal.dict js))
    (hq : dlookup js qid = none)
    (hn1 : n1 ≠ "")
    (h1n : mtype1 ≠ "name") (h1p : mtype1 ≠ "partner")
    (h2n : mtype2 ≠ "name") (h2p : mtype2 ≠ "partner") :
    ∃ tl1 b1 tl2 b2,
      add_journal_observation tl qid mtype1 v1 (some n1) p1 now1 =
        Except.ok (tl1, b1) ∧
      journalNameOf tl1 qid = some (PyVal.str n1) ∧
      add_journal_observation tl1 qid mtype2 v2 n2 p2 now2 = Except.ok (tl2, b2) ∧
      journalNameOf tl2 qid = some (PyVal.str n1) := by
  obtain ⟨js1, jeF1, b1, hc1, hname1, hframe1, hslot1⟩ :=
    ajo_call tl m wd js [] qid mtype1 v1 (some n1) p1 now1 hm hw hj
      (Or.inl ⟨hq, rfl⟩) h1n h1p (Or.inl rfl)
  have hname1v : dlookup jeF1 "name" = some (PyVal.str n1) := by
    rw [hname1]
    simp [truthyOptStr, hn1, dmem, dlookup]
  have hnameOf1 : journalNameOf (assembleTl tl m wd js1 qid jeF1) qid =
      some (PyVal.str n1) := by
    rw [journalNameOf_assembleTl, hname1v]
  have hm2 : dlookup (assembleTl tl m wd js1 qid jeF1) "metrics" =
      some (PyVal.dict (dset m "wikidata" (PyVal.dict (dset wd "journals"
        (PyVal.dict (dset js1 qid (PyVal.dict jeF1))))))) := by
    unfold assembleTl
    exact dlookup_dset_self tl "metrics" _
  have hw2 : dlookup (dset m "wikidata" (PyVal.dict (dset wd "journals"
      (PyVal.dict (dset js1 qid (PyVal.dict jeF1)))))) "wikidata" =
      some (PyVal.dict (dset wd "journals" (PyVal.dict (dset js1 qid (PyVal.dict jeF1))))) :=
    dlookup_dset_self m "wikidata" _
  have hj2 : dlookup (dset wd "journals" (PyVal.dict (dset js1 qid (PyVal.dict jeF1))))
      "journals" = some (PyVal.dict (dset js1 qid (PyVal.dict jeF1))) :=
    dlookup_dset_self wd "journals" _
  have hq2 : dlookup (dset js1 qid (PyVal.dict jeF1)) qid = some (PyVal.dict jeF1) :=
    dlookup_dset_self js1 qid _
  have hslot2 : dlookup jeF1 mtype2 = none ∨
      ∃ mtd xs, dlookup jeF1 mtype2 = some (PyVal.dict mtd) ∧
        dlookup mtd "series" = some (PyVal.list xs) ∧
        (xs = [] ∨ ∃ od lv, xs.getLast? = some (PyVal.dict od) ∧
          dlookup od "v" = some lv) := by
    by_cases hmm : mtype2 = mtype1
    · subst hmm
      obtain ⟨mtF, xs2, od, lv, ha, hb, hc, hd⟩ := hslot1
      exact Or.inr ⟨mtF, xs2, ha, hb, Or.inr ⟨od, lv, hc, hd⟩⟩
    · left
      rw [hframe1 mtype2 h2n h2p hmm]
      rfl
  obtain ⟨js2, jeF2, b2, hc2, hname2, hframe2, hslot2F⟩ :=
    ajo_call (assembleTl tl m wd js1 qid jeF1)
      (dset m "wikidata" (PyVal.dict (dset wd "journals"
        (PyVal.dict (dset js1 qid (PyVal.dict jeF1))))))
      (dset wd "journals" (PyVal.dict (dset js1 qid (PyVal.dict jeF1))))
      (dset js1 qid (PyVal.dict jeF1)) jeF1 qid mtype2 v2 n2 p2 now2
      hm2 hw2 hj2 (Or.inr hq2) h2n h2p hslot2
  have hname2v : dlookup jeF2 "name" = some (PyVal.str n1) := by
    rw [hname2]
    have : dmem jeF1 "name" = true := by simp [dmem, hname1v]
    simp [this, hname1v]
  refine ⟨assembleTl tl m wd js1 qid jeF1, b1, _, b2, hc1, hnameOf1, hc2, ?_⟩
  rw [journalNameOf_assembleTl, hname2v]


/-- C7 witness: Scenario C — a fresh journal entry is created with name
"Journal of Spatial Information Science"; the second call supplies a
different name, which is ignored. -/
theorem c7_witness :
    ∃ tl1 b1 tl2 b2,
      add_journal_observation (create_empty_timeline "T0") "Q50814880" "articles"
        (PyVal.int 25) (some "Journal of Spatial Information Science")
        (some "JOSIS / TU Dresden") "T1" = Except.ok (tl1, b1) ∧
      journalNameOf tl1 "Q50814880" =
        some (PyVal.str "Journal of Spatial Information Science") ∧
      add_journal_observation tl1 "Q50814880" "citations_p2860" (PyVal.int 201)
        (some "A Different Name") none "T2" = Except.ok (tl2, b2) ∧
      journalNameOf tl2 "Q50814880" =
        some (PyVal.str "Journal of Spatial Information Science") :=
  c7_theorem (create_empty_timeline "T0")
    [("wikidata", PyVal.dict
        [("description", PyVal.str "Wikidata scholarly graph metrics"),
         ("journals", PyVal.dict
            [("description", PyVal.str "Partner journal statistics from Wikidata")])]),
     ("opencitations", PyVal.dict
        [("description", PyVal.str "OpenCitations crowdsourcing metrics")])]
    [("description", PyVal.str "Wikidata scholarly graph metrics"),
     ("journals", PyVal.dict
        [("description", PyVal.str "Partner journal statistics from Wikidata")])]
    [("description", PyVal.str "Partner journal statistics from Wikidata")]
    "Q50814880" "articles" "citations_p2860" (PyVal.int 25) (PyVal.int 201)
    "Journal of Spatial Information Science" (some "JOSIS / TU Dresden")
    (some "A Different Name") none "T1" "T2"
    rfl rfl rfl rfl (by decide) (by decide) (by decide) (by decide) (by decide)


/-! ## C1: idempotent record (add_observation called twice) -/

/-- The intermediate-segment descent of `add_observation` stays within
dicts (missing keys are allowed: the code creates them). -/
def navigable (d : List (String × PyVal)) : List String → Bool
  | [] => true
  | p :: rest =>
      match dlookup d p with
      | none => true
      | some (PyVal.dict d2) => navigable d2 rest
      | some _ => false

/-- The dict in which the final path segment is looked up after the
descent; a missing intermediate segment yields the freshly created empty
dict. -/
def navTarget (d : List (String × PyVal)) : List String → List (String × PyVal)
  | [] => d
  | p :: rest =>
      match dlookup d p with
      | some (PyVal.dict d2) => navTarget d2 rest
      | _ => []

/-- The leaf at the final key is absent, or is a dict whose `series` is
absent or a well-formed observation list (so `add_observation` cannot
raise there). -/
def leafOkB (fd : List (String × PyVal)) (mk : String) : Bool :=
  match dlookup fd mk with
  | none => true
  | some (PyVal.dict md) =>
      match dlookup md "series" with
      | none => true
      | some (PyVal.list xs) =>
          match xs.getLast? with
          | none => true
          | some (PyVal.dict od) => dmem od "v"
          | some _ => false
      | some _ => false
  | some _ => false

/-- The `v` of the last observation stored at the final key, if any. -/
def latestOf (fd : List (String × PyVal)) (mk : String) : Option PyVal :=
  match dlookup fd mk with
  | some (PyVal.dict md) =>
      match dlookup md "series" with
      | some (PyVal.list xs) =>
          match xs.getLast? with
          | some (PyVal.dict od) => dlookup od "v"
          | _ => none
      | _ => none
  | _ => none

/-- The stored series list at the final key (empty when absent). -/
def seriesOf (fd : List (String × PyVal)) (mk : String) : List PyVal :=
  match dlookup fd mk with
  | some (PyVal.dict md) =>
      match dlookup md "series" with
      | some (PyVal.list xs) => xs
      | _ => []
  | _ => []

theorem navigable_nil (l : List String) : navigable [] l = true := by
  cases l <;> simp [navigable, dlookup]

theorem navTarget_nil (l : List String) : navTarget [] l = [] := by
  cases l <;> simp [navTarget, dlookup]

theorem pyEq_refl_scalar (v : PyVal) (h : isScalar v = true) : pyEq v v = true := by
  cases v <;> simp_all [isScalar, pyEq]

theorem addObsAt_twocall (init : List String) (cur : List (String × PyVal))
    (mk : String) (v : PyVal) (now1 now2 : String) (mn sdesc snotes : Option String)
    (hnav : navigable cur init = true)
    (hleaf : leafOkB (navTarget cur init) mk = true)
    (hpr : pyEq v v = true)
    (hdiff : latestOf (navTarget cur init) mk = none ∨
      ∃ lv, latestOf (navTarget cur init) mk = some lv ∧ pyEq lv v = false) :
    ∃ cur1, addObsAt init cur mk v now1 mn sdesc snotes = Except.ok (cur1, true) ∧
      seriesOf (navTarget cur1 init) mk =
        seriesOf (navTarget cur init) mk ++ [obsD now1 v] ∧
      addObsAt init cur1 mk v now2 mn sdesc snotes = Except.ok (cur1, false) := by
  induction init generalizing cur with
  | nil =>
      simp only [navTarget] at hleaf hdiff
      simp only [navTarget]
      cases hmk : dlookup cur mk with
      | none =>
          refine ⟨dset cur mk (PyVal.dict (dset (newLeaf mn sdesc snotes) "series"
            (PyVal.list [obsD now1 v]))), ?_, ?_, ?_⟩
          · simp [addObsAt, finalStep, hmk, pure, Except.pure]
          · simp [seriesOf, hmk, dlookup_dset_self]
          · simp [addObsAt, finalStep, dlookup_dset_self, obsD, dlookup, hpr, pure,
              Except.pure]
      | some node =>
          cases node with
          | dict mdct =>
              cases hser : dlookup mdct "series" with
              | none =>
                  refine ⟨dset cur mk (PyVal.dict (dset mdct "series"
                    (PyVal.list [obsD now1 v]))), ?_, ?_, ?_⟩
                  · simp [addObsAt, finalStep, hmk, hser, pure, Except.pure]
                  · simp [seriesOf, hmk, hser, dlookup_dset_self]
                  · simp [addObsAt, finalStep, dlookup_dset_self, obsD, dlookup, hpr,
                      pure, Except.pure]
              | some sv =>
                  cases sv with
                  | list xs =>
                      cases hl : xs.getLast? with
                      | none =>
                          have hxs : xs = [] := List.getLast?_eq_none_iff.mp hl
                          subst hxs
                          refine ⟨dset cur mk (PyVal.dict (dset mdct "series"
                            (PyVal.list [obsD now1 v]))), ?_, ?_, ?_⟩
                          · simp [addObsAt, finalStep, hmk, hser, pure, Except.pure]
                          · simp [seriesOf, hmk, hser, dlookup_dset_self]
                          · simp [addObsAt, finalStep, dlookup_dset_self, obsD,
                              dlookup, hpr, pure, Except.pure]
                      | some last =>
                          cases last with
                          | dict od =>
                              simp only [leafOkB, hmk, hser, hl, dmem] at hleaf
                              cases hv : dlookup od "v" with
                              | none => simp [hv] at hleaf
                              | some lv =>
                                  have hdn : pyEq lv v = false := by
                                    rcases hdiff with h | ⟨lv2, hlv2, hpe⟩
                                    · simp [latestOf, hmk, hser, hl, hv] at h
                                    · simp only [latestOf, hmk, hser, hl, hv] at hlv2
                                      cases hlv2
                                      exact hpe
                                  refine ⟨dset cur mk (PyVal.dict (dset mdct "series"
                                    (PyVal.list (xs ++ [obsD now1 v])))), ?_, ?_, ?_⟩
                                  · simp [addObsAt, finalStep, hmk, hser, hl, hv, hdn,
                                      pure, Except.pure]
                                  · simp [seriesOf, hmk, hser, dlookup_dset_self]
                                  · simp [addObsAt, finalStep, dlookup_dset_self, obsD,
                                      dlookup, hpr, List.getLast?_concat, pure,
                                      Except.pure]
                          | null => simp [leafOkB, hmk, hser, hl] at hleaf
                          | bool b => simp [leafOkB, hmk, hser, hl] at hleaf
                          | int n => simp [leafOkB, hmk, hser, hl] at hleaf
                          | str s => simp [leafOkB, hmk, hser, hl] at hleaf
                          | list l2 => simp [leafOkB, hmk, hser, hl] at hleaf
                  | null => simp [leafOkB, hmk, hser] at hleaf
                  | bool b => simp [leafOkB, hmk, hser] at hleaf
                  | int n => simp [leafOkB, hmk, hser] at hleaf
                  | str s => simp [leafOkB, hmk, hser] at hleaf
                  | dict d2 => simp [leafOkB, hmk, hser] at hleaf
          | null => simp [leafOkB, hmk] at hleaf
          | bool b => simp [leafOkB, hmk] at hleaf
          | int n => simp [leafOkB, hmk] at hleaf
          | str s => simp [leafOkB, hmk] at hleaf
          | list l2 => simp [leafOkB, hmk] at hleaf
  | cons p rest ih =>
      cases hp : dlookup cur p with
      | none =>
          have hnav2 : navigable ([] : List (String × PyVal)) rest = true :=
            navigable_nil rest
          have htgt : navTarget cur (p :: rest) = [] := by
            simp [navTarget, hp]
          rw [htgt] at hleaf hdiff
          rw [← navTarget_nil rest] at hleaf hdiff
          obtain ⟨c1, h1, hs, h2⟩ := ih [] hnav2 hleaf hdiff
          refine ⟨dset cur p (PyVal.dict c1), ?_, ?_, ?_⟩
          · simp [addObsAt, hp, h1]
          · have : navTarget (dset cur p (PyVal.dict c1)) (p :: rest) =
                navTarget c1 rest := by
              simp [navTarget, dlookup_dset_self]
            rw [this, htgt, ← navTarget_nil rest]
            exact hs
          · simp [addObsAt, dlookup_dset_self, h2, dset_dset_self]
      | some node =>
          cases node with
          | dict d2 =>
              have hnav2 : navigable d2 rest = true := by
                simp only [navigable, hp] at hnav
                exact hnav
              have htgt : navTarget cur (p :: rest) = navTarget d2 rest := by
                simp [navTarget, hp]
              rw [htgt] at hleaf hdiff
              obtain ⟨c1, h1, hs, h2⟩ := ih d2 hnav2 hleaf hdiff
              refine ⟨dset cur p (PyVal.dict c1), ?_, ?_, ?_⟩
              · simp [addObsAt, hp, h1]
              · have : navTarget (dset cur p (PyVal.dict c1)) (p :: rest) =
                    navTarget c1 rest := by
                  simp [navTarget, dlookup_dset_self]
                rw [this, htgt]
                exact hs
              · simp [addObsAt, dlookup_dset_self, h2, dset_dset_self]
          | null => simp [navigable, hp] at hnav
          | bool b => simp [navigable, hp] at hnav
          | int n => simp [navigable, hp] at hnav
          | str s => simp [navigable, hp] at hnav
          | list l2 => simp [navigable, hp] at hnav

/-- C1 amended: provided the series at the path is empty, absent, or its
last stored value differs from the (scalar) candidate `v` — i.e. except
when the last stored value already equals `v` — two successive
`add_observation` calls with the same `v` append exactly one observation
and return `(true, false)`, the second call leaving the document
unchanged; the suppression test compares the candidate to the last stored
value, so no call ever appends a value equal to the previous last. -/
theorem c1_amended (tl m : List (String × PyVal)) (path : String) (v : PyVal)
    (src : String) (notes mn mdesc : Option String) (now1 now2 : String)
    (hm : dlookup tl "metrics" = some (PyVal.dict m))
    (hnav : navigable m (splitDot path).dropLast = true)
    (hleaf : leafOkB (navTarget m (splitDot path).dropLast)
      ((splitDot path).getLastD "") = true)
    (hsv : isScalar v = true)
    (hdiff : latestOf (navTarget m (splitDot path).dropLast)
        ((splitDot path).getLastD "") = none ∨
      ∃ lv, latestOf (navTarget m (splitDot path).dropLast)
          ((splitDot path).getLastD "") = some lv ∧ pyEq lv v = false) :
    ∃ tl1 m1,
      add_observation tl path v src notes mn mdesc now1 = Except.ok (tl1, true) ∧
      dlookup tl1 "metrics" = some (PyVal.dict m1) ∧
      seriesOf (navTarget m1 (splitDot path).dropLast) ((splitDot path).getLastD "") =
        seriesOf (navTarget m (splitDot path).dropLast) ((splitDot path).getLastD "")
          ++ [obsD now1 v] ∧
      add_observation tl1 path v src notes mn mdesc now2 = Except.ok (tl1, false) := by
  obtain ⟨m1, h1, hs, h2⟩ := addObsAt_twocall (splitDot path).dropLast m
    ((splitDot path).getLastD "") v now1 now2 mn mdesc notes hnav hleaf
    (pyEq_refl_scalar v hsv) hdiff
  simp only [List.getLastD_eq_getLast?] at h1 h2
  refine ⟨dset tl "metrics" (PyVal.dict m1), m1, ?_, dlookup_dset_self tl "metrics" _,
    hs, ?_⟩
  · simp [add_observation, hm, h1]
  · simp [add_observation, dlookup_dset_self, h2, dset_dset_self]

def c1tl : List (String × PyVal) :=
  [("metrics", PyVal.dict
    [("a", PyVal.dict [("series", PyVal.list [obsD "T0" (PyVal.int 1)])])])]

/-- C1 counterexample: on a document whose series at `a` already ends
with the value `1`, two successive calls recording `1` return
`(false, false)` and append nothing, refuting the claimed universal
`(true, false)` / append-exactly-one behavior. -/
theorem c1_counterexample :
    add_observation c1tl "a" (PyVal.int 1) "src" none none none "T1" =
      Except.ok (c1tl, false) ∧
    add_observation c1tl "a" (PyVal.int 1) "src" none none none "T2" =
      Except.ok (c1tl, false) :=
  ⟨rfl, rfl⟩

/-- C1 witness: Scenario A/B — recording 14 at `wikidata.p1343_count` on
the fresh document appends once and returns true, the repeat returns
false. -/
theorem c1_witness :
    ∃ tl1 m1,
      add_observation (create_empty_timeline "T0") "wikidata.p1343_count"
        (PyVal.int 14) "wikidata" none none none "T1" = Except.ok (tl1, true) ∧
      dlookup tl1 "metrics" = some (PyVal.dict m1) ∧
      seriesOf (navTarget m1 (splitDot "wikidata.p1343_count").dropLast)
          ((splitDot "wikidata.p1343_count").getLastD "") =
        seriesOf (navTarget
            [("wikidata", PyVal.dict
                [("description", PyVal.str "Wikidata scholarly graph metrics"),
                 ("journals", PyVal.dict
                    [("description",
                      PyVal.str "Partner journal statistics from Wikidata")])]),
             ("opencitations", PyVal.dict
                [("description", PyVal.str "OpenCitations crowdsourcing metrics")])]
            (splitDot "wikidata.p1343_count").dropLast)
          ((splitDot "wikidata.p1343_count").getLastD "") ++ [obsD "T1" (PyVal.int 14)] ∧
      add_observation tl1 "wikidata.p1343_count" (PyVal.int 14) "wikidata"
        none none none "T2" = Except.ok (tl1, false) :=
  c1_amended (create_empty_timeline "T0")
    [("wikidata", PyVal.dict
        [("description", PyVal.str "Wikidata scholarly graph metrics"),
         ("journals", PyVal.dict
            [("description", PyVal.str "Partner journal statistics from Wikidata")])]),
     ("opencitations", PyVal.dict
        [("description", PyVal.str "OpenCitations crowdsourcing metrics")])]
    "wikidata.p1343_count" (PyVal.int 14) "wikidata" none none none "T1" "T2"
    rfl rfl rfl rfl (Or.inl rfl)


/-! ## C2: flatten completeness of get_all_latest_metrics -/

/-! C2 phase 1: dotted-path machinery -/

/-- A path segment as the data model requires: non-empty and dot-free. -/
def goodKey (k : String) : Bool := (k != "") && !(k.data.contains '.')

/-- Dot-join a non-empty segment list. -/
def joinSegs : List String → String
  | [] => ""
  | [s] => s
  | s :: rest => s ++ "." ++ joinSegs rest

/-- The path accumulator of `collect_metrics`, folded over segments. -/
def prejoin (path : String) (segs : List String) : String :=
  List.foldl (fun a k => if a = "" then k else a ++ "." ++ k) path segs

theorem prejoin_nil (path : String) : prejoin path [] = path := rfl

theorem prejoin_cons (path k : String) (segs : List String) :
    prejoin path (k :: segs) =
      prejoin (if path = "" then k else path ++ "." ++ k) segs := rfl

theorem goodKey_ne_empty {k : String} (h : goodKey k = true) : k ≠ "" := by
  simp [goodKey] at h
  exact h.1

theorem goodKey_no_dot {k : String} (h : goodKey k = true) : '.' ∉ k.data := by
  simp [goodKey, List.contains] at h
  intro hmem
  exact absurd (List.elem_iff.mpr hmem) (by simpa using h.2)

theorem str_append_ne_empty (a s : String) (h : a ≠ "") : a ++ "." ++ s ≠ "" := by
  intro he
  have hd := congrArg String.data he
  rw [String.data_append, String.data_append] at hd
  have : a.data = [] := by
    cases hda : a.data with
    | nil => rfl
    | cons c cs => rw [hda] at hd; simp at hd
  exact h (String.ext (by simp [this]))

theorem joinSegs_cons_data (k : String) (s : List String) (hs : s ≠ []) :
    (joinSegs (k :: s)).data = k.data ++ '.' :: (joinSegs s).data := by
  cases s with
  | nil => exact absurd rfl hs
  | cons a t =>
      show ((k ++ "." ++ joinSegs (a :: t))).data = _
      rw [String.data_append, String.data_append]
      simp

theorem fold_prejoin (segs : List String) (a : String) (ha : a ≠ "") :
    prejoin a segs = if segs.isEmpty then a else a ++ "." ++ joinSegs segs := by
  induction segs generalizing a with
  | nil => simp [prejoin_nil]
  | cons s rest ih =>
      rw [prejoin_cons, if_neg ha]
      rw [ih (a ++ "." ++ s) (str_append_ne_empty a s ha)]
      cases rest with
      | nil => simp [joinSegs]
      | cons b t =>
          have hj : joinSegs (s :: b :: t) = s ++ "." ++ joinSegs (b :: t) := rfl
          rw [hj]
          simp [String.append_assoc]

theorem prejoin_good (segs : List String) (a k : String) (ha : a ≠ "")
    (hk : k ≠ "") : prejoin a (k :: segs) = a ++ "." ++ joinSegs (k :: segs) := by
  rw [fold_prejoin (k :: segs) a ha]
  simp

theorem prejoin_empty_join (segs : List String) (k : String) (hk : k ≠ "") :
    prejoin "" (k :: segs) = joinSegs (k :: segs) := by
  rw [prejoin_cons, if_pos rfl]
  rw [fold_prejoin segs k hk]
  cases segs with
  | nil => simp [joinSegs]
  | cons b t => simp [joinSegs]

theorem dot_prefix_cancel (a : List Char) : ∀ (b u v : List Char),
    '.' ∉ a → '.' ∉ b → a ++ '.' :: u = b ++ '.' :: v → a = b ∧ u = v := by
  induction a with
  | nil =>
      intro b u v _ hb he
      cases b with
      | nil => simpa using he
      | cons c cs =>
          simp at he
          obtain ⟨hc, _⟩ := he
          exact absurd (by simp [← hc]) hb
  | cons c cs ih =>
      intro b u v ha hb he
      cases b with
      | nil =>
          simp at he
          obtain ⟨hc, _⟩ := he
          exact absurd (by simp [hc]) ha
      | cons c2 cs2 =>
          simp only [List.cons_append, List.cons.injEq] at he
          obtain ⟨hc, hrest⟩ := he
          have ha2 : '.' ∉ cs := fun hm => ha (by simp [hm])
          have hb2 : '.' ∉ cs2 := fun hm => hb (by simp [hm])
          obtain ⟨h1, h2⟩ := ih cs2 u v ha2 hb2 hrest
          exact ⟨by simp [hc, h1], h2⟩

theorem joinSegs_cons_ne (h key : String) (s2 t2 : List String)
    (hh : goodKey h = true) (hk : goodKey key = true) (hne : h ≠ key) :
    joinSegs (h :: s2) ≠ joinSegs (key :: t2) := by
  intro he
  cases hs2 : s2 with
  | nil =>
      cases ht2 : t2 with
      | nil =>
          subst hs2; subst ht2
          exact hne he
      | cons b t =>
          subst hs2; subst ht2
          have hd := congrArg String.data he
          rw [joinSegs_cons_data key (b :: t) (by simp)] at hd
          have : ('.' : Char) ∈ (joinSegs [h]).data := by
            rw [hd]; simp
          exact goodKey_no_dot hh (by simpa [joinSegs] using this)
  | cons b t =>
      cases ht2 : t2 with
      | nil =>
          subst hs2; subst ht2
          have hd := congrArg String.data he
          rw [joinSegs_cons_data h (b :: t) (by simp)] at hd
          have : ('.' : Char) ∈ (joinSegs [key]).data := by
            rw [← hd]; simp
          exact goodKey_no_dot hk (by simpa [joinSegs] using this)
      | cons b2 t3 =>
          subst hs2; subst ht2
          have hd := congrArg String.data he
          rw [joinSegs_cons_data h (b :: t) (by simp),
            joinSegs_cons_data key (b2 :: t3) (by simp)] at hd
          obtain ⟨h1, _⟩ := dot_prefix_cancel h.data key.data _ _
            (goodKey_no_dot hh) (goodKey_no_dot hk) hd
          exact hne (String.ext h1)

theorem str_append_cancel (a b c : String) (h : a ++ b = a ++ c) : b = c := by
  have hd := congrArg String.data h
  rw [String.data_append, String.data_append] at hd
  exact String.ext (List.append_cancel_left hd)

theorem prejoin_head_ne (path h key : String) (s2 t2 : List String)
    (hh : goodKey h = true) (hk : goodKey key = true) (hne : h ≠ key) :
    prejoin path (h :: s2) ≠ prejoin path (key :: t2) := by
  by_cases hp : path = ""
  · subst hp
    rw [prejoin_empty_join s2 h (goodKey_ne_empty hh),
      prejoin_empty_join t2 key (goodKey_ne_empty hk)]
    exact joinSegs_cons_ne h key s2 t2 hh hk hne
  · rw [prejoin_good s2 path h hp (goodKey_ne_empty hh),
      prejoin_good t2 path key hp (goodKey_ne_empty hk)]
    intro he
    exact joinSegs_cons_ne h key s2 t2 hh hk hne
      (str_append_cancel (path ++ ".") _ _ he)

/-! C2 phase 2: data-model well-formedness and the pure walk -/

/-- A descriptive attribute value (a string, per the data model). -/
def isAttrVal : PyVal → Bool
  | PyVal.str _ => true
  | _ => false

/-- A well-formed stored observation `{"t": <string>, "v": <scalar>}`. -/
def isObsDict : PyVal → Bool
  | PyVal.dict [("t", PyVal.str _), ("v", w)] => isScalar w
  | _ => false

/-- Keys a MetricSeries leaf may carry besides `series`. -/
def leafAttrKeys : List String := ["name", "description", "notes", "unit"]

/-- Every binding of a leaf dict is `series` or a descriptive attribute. -/
def leafAttrsOnly (d : List (String × PyVal)) : Bool :=
  d.all (fun kv => kv.1 == "series" || (decide (kv.1 ∈ leafAttrKeys) && isAttrVal kv.2))

/-- Python-dict key uniqueness for an association list. -/
def nodupKeys {α : Type} : List (String × α) → Bool
  | [] => true
  | (k, _) :: rest => !(dmem rest k) && nodupKeys rest

/-- All keys of a dict are non-empty and dot-free. -/
def goodKeysB (d : List (String × PyVal)) : Bool :=
  d.all (fun kv => goodKey kv.1)

/-- Data-model shape of the children of one tree level, as
`collect_metrics` walks it: descriptive keys carry strings; every other
key that carries a dict is a well-formed node — a leaf (a `series` list
of well-formed observations plus descriptive attributes only) or an
interior node whose children recursively satisfy the same shape. -/
def wfWalk : List (String × PyVal) → Bool
  | [] => true
  | (k, v) :: rest =>
      (if k ∈ attrSkip then isAttrVal v
       else
         match v with
         | PyVal.dict d =>
             nodupKeys d && goodKeysB d &&
             (match dlookup d "series" with
              | some (PyVal.list xs) => xs.all isObsDict && leafAttrsOnly d && wfWalk d
              | some _ => false
              | none => wfWalk d)
         | _ => true) && wfWalk rest
  termination_by l => sizeOf l
  decreasing_by all_goals (simp_wf <;> omega)

/-- A well-formed tree level: unique, non-empty, dot-free keys and
well-formed children. -/
def wfLevel (items : List (String × PyVal)) : Bool :=
  nodupKeys items && goodKeysB items && wfWalk items

/-- The flattened entry `collect_metrics` builds for a leaf dict `d`
reached at key `key` with series value `sv`. -/
def mkEntry (d : List (String × PyVal)) (key : String) (sv : PyVal) : PyVal :=
  match sv with
  | PyVal.list xs =>
      match xs.getLast? with
      | some (PyVal.dict od) =>
          PyVal.dict [("value", (dlookup od "v").getD PyVal.null),
                      ("timestamp", (dlookup od "t").getD PyVal.null),
                      ("name", (dlookup d "name").getD (PyVal.str key))]
      | _ => PyVal.null
  | _ => PyVal.null

/-- The entry list produced by walking one level: the same recursion as
`collect_metrics`, without the accumulator and the error plumbing. -/
def entriesOf : List (String × PyVal) → String → List (String × PyVal)
  | [], _ => []
  | (key, v) :: rest, path =>
      if key ∈ attrSkip then entriesOf rest path
      else
        let current_path := if path = "" then key else path ++ "." ++ key
        match v with
        | PyVal.dict d =>
            (match dlookup d "series" with
             | some sv =>
                 if truthy sv then (current_path, mkEntry d key sv) :: entriesOf rest path
                 else entriesOf d current_path ++ entriesOf rest path
             | none => entriesOf d current_path ++ entriesOf rest path)
        | _ => entriesOf rest path
  termination_by items _ => sizeOf items
  decreasing_by all_goals (simp_wf <;> omega)

/-- The path resolves (descending only dicts) to a leaf dict with a
non-empty `series` list. -/
def leafRes (items : List (String × PyVal)) (segs : List String) : Prop :=
  ∃ ld xs, dictResolve items segs = some (ResolveRes.atDict ld) ∧
    dlookup ld "series" = some (PyVal.list xs) ∧ xs ≠ []

/-! Association-list lemmas for the walk -/

theorem dset_append_fresh {α : Type} (d : List (String × α)) (k : String) (v : α)
    (h : dmem d k = false) : dset d k v = d ++ [(k, v)] := by
  induction d with
  | nil => simp [dset]
  | cons kv rest ih =>
      obtain ⟨k1, v1⟩ := kv
      simp only [dmem, dlookup] at h
      by_cases h1 : k1 = k
      · simp [h1] at h
      · simp only [dmem] at ih
        simp [dset, h1, ih (by simpa [h1] using h)]

theorem dlookup_append_left {α : Type} (l1 l2 : List (String × α)) (k : String)
    (v : α) (h : dlookup l1 k = some v) : dlookup (l1 ++ l2) k = some v := by
  induction l1 with
  | nil => simp [dlookup] at h
  | cons kv rest ih =>
      obtain ⟨k1, v1⟩ := kv
      by_cases h1 : k1 = k
      · simp [dlookup, h1] at h ⊢
        exact h
      · simp [dlookup, h1] at h ⊢
        exact ih h

theorem dlookup_append_right {α : Type} (l1 l2 : List (String × α)) (k : String)
    (h : dlookup l1 k = none) : dlookup (l1 ++ l2) k = dlookup l2 k := by
  induction l1 with
  | nil => simp
  | cons kv rest ih =>
      obtain ⟨k1, v1⟩ := kv
      by_cases h1 : k1 = k
      · simp [dlookup, h1] at h
      · simp [dlookup, h1] at h ⊢
        exact ih h

theorem dlookup_eq_none_iff {α : Type} (l : List (String × α)) (k : String) :
    dlookup l k = none ↔ k ∉ l.map Prod.fst := by
  induction l with
  | nil => simp [dlookup]
  | cons kv rest ih =>
      obtain ⟨k1, v1⟩ := kv
      by_cases h1 : k1 = k
      · simp [dlookup, h1]
      · simp [dlookup, h1, ih]
        intro h2
        exact fun he => h1 he.symm

theorem dmem_append {α : Type} (l1 l2 : List (String × α)) (k : String) :
    dmem (l1 ++ l2) k = (dmem l1 k || dmem l2 k) := by
  cases h : dlookup l1 k with
  | none => simp [dmem, dlookup_append_right l1 l2 k h, h]
  | some v => simp [dmem, dlookup_append_left l1 l2 k v h, h]

theorem nodupKeys_append {α : Type} (l1 l2 : List (String × α))
    (h1 : nodupKeys l1 = true) (h2 : nodupKeys l2 = true)
    (hd : ∀ p, p ∈ l1.map Prod.fst → p ∉ l2.map Prod.fst) :
    nodupKeys (l1 ++ l2) = true := by
  induction l1 with
  | nil => simpa using h2
  | cons kv rest ih =>
      obtain ⟨k1, v1⟩ := kv
      simp only [nodupKeys, Bool.and_eq_true] at h1
      obtain ⟨hm, hrest⟩ := h1
      simp only [List.cons_append, nodupKeys, Bool.and_eq_true]
      constructor
      · simp only [List.append_eq]
        rw [dmem_append]
        simp only [Bool.not_eq_true', Bool.or_eq_false_iff]
        refine ⟨by simpa using hm, ?_⟩
        have hnone : dlookup l2 k1 = none := (dlookup_eq_none_iff l2 k1).mpr (hd k1 (by simp))
        simp only [dmem, hnone, Option.isSome_none]
      · exact ih hrest (fun p hp => hd p (by simp [hp]))

theorem isObsDict_shape (a : PyVal) (h : isObsDict a = true) :
    ∃ t w, a = PyVal.dict [("t", PyVal.str t), ("v", w)] := by
  unfold isObsDict at h
  split at h
  · next t w => exact ⟨t, w, rfl⟩
  · simp at h

theorem obs_last (xs : List PyVal) (hwf : xs.all isObsDict = true) (hne : xs ≠ []) :
    ∃ od lv lt, xs.getLast? = some (PyVal.dict od) ∧
      dlookup od "v" = some lv ∧ dlookup od "t" = some lt := by
  have hsome : xs.getLast?.isSome = true := List.getLast?_isSome.mpr hne
  obtain ⟨a, ha⟩ := Option.isSome_iff_exists.mp hsome
  have hmem : a ∈ xs := List.mem_of_mem_getLast? ha
  have hobs : isObsDict a = true := by
    rw [List.all_eq_true] at hwf
    exact hwf a hmem
  obtain ⟨t, w, hshape⟩ := isObsDict_shape a hobs
  subst hshape
  exact ⟨[("t", PyVal.str t), ("v", w)], w, PyVal.str t, ha, by simp [dlookup], by
    simp [dlookup]⟩

theorem leaf_no_sub (d : List (String × PyVal)) (xs : List PyVal)
    (hser : dlookup d "series" = some (PyVal.list xs))
    (hattrs : leafAttrsOnly d = true) :
    ∀ s rest2, dictResolve d (s :: rest2) = some ResolveRes.missing ∨
      dictResolve d (s :: rest2) = none := by
  intro s rest2
  cases hls : dlookup d s with
  | none => left; simp [dictResolve, hls]
  | some w =>
      right
      have hmem := dlookup_mem hls
      rw [leafAttrsOnly, List.all_eq_true] at hattrs
      have := hattrs (s, w) hmem
      simp only [Bool.or_eq_true, beq_iff_eq, Bool.and_eq_true, decide_eq_true_eq] at this
      rcases this with hse | ⟨_, hav⟩
      · subst hse
        rw [hls] at hser
        cases hser
        simp [dictResolve, hls]
      · cases w <;> simp [isAttrVal] at hav <;> simp [dictResolve, hls]

theorem resolve_cons_ne (key : String) (v : PyVal) (rest : List (String × PyVal))
    (h : String) (segs : List String) (hne : h ≠ key) :
    dictResolve ((key, v) :: rest) (h :: segs) = dictResolve rest (h :: segs) := by
  have : ¬ (key = h) := fun he => hne he.symm
  simp [dictResolve, dlookup, this]

theorem resolve_cons_dict (key : String) (d : List (String × PyVal))
    (rest : List (String × PyVal)) (segs : List String) :
    dictResolve ((key, PyVal.dict d) :: rest) (key :: segs) = dictResolve d segs := by
  simp [dictResolve, dlookup]

theorem resolve_cons_nondict (key : String) (v : PyVal) (rest : List (String × PyVal))
    (segs : List String) (hv : ∀ d, v ≠ PyVal.dict d) :
    dictResolve ((key, v) :: rest) (key :: segs) = none := by
  cases v <;> simp [dictResolve, dlookup] <;> exact absurd rfl (hv _)

theorem wfWalk_tail (k : String) (v : PyVal) (rest : List (String × PyVal))
    (h : wfWalk ((k, v) :: rest) = true) : wfWalk rest = true := by
  cases v <;> (simp only [wfWalk, Bool.and_eq_true] at h; exact h.2)

theorem wfWalk_head (k : String) (v : PyVal) (rest : List (String × PyVal))
    (h : wfWalk ((k, v) :: rest) = true) :
    (if k ∈ attrSkip then isAttrVal v
     else
       match v with
       | PyVal.dict d =>
           nodupKeys d && goodKeysB d &&
           (match dlookup d "series" with
            | some (PyVal.list xs) => xs.all isObsDict && leafAttrsOnly d && wfWalk d
            | some _ => false
            | none => wfWalk d)
       | _ => true) = true := by
  cases v <;> (simp only [wfWalk, Bool.and_eq_true] at h; exact h.1)

theorem wfLevel_tail (k : String) (v : PyVal) (rest : List (String × PyVal))
    (h : wfLevel ((k, v) :: rest) = true) : wfLevel rest = true := by
  simp only [wfLevel, nodupKeys, goodKeysB, List.all_cons, Bool.and_eq_true] at h ⊢
  exact ⟨⟨h.1.1.2, h.1.2.2⟩, wfWalk_tail k v rest h.2⟩

theorem wfLevel_head_good (k : String) (v : PyVal) (rest : List (String × PyVal))
    (h : wfLevel ((k, v) :: rest) = true) : goodKey k = true := by
  simp only [wfLevel, goodKeysB, List.all_cons, Bool.and_eq_true] at h
  exact h.1.2.1

theorem wfLevel_head_fresh (k : String) (v : PyVal) (rest : List (String × PyVal))
    (h : wfLevel ((k, v) :: rest) = true) : dmem rest k = false := by
  simp only [wfLevel, nodupKeys, Bool.and_eq_true] at h
  have := h.1.1.1
  simpa using this

theorem wfLevel_attr (k : String) (v : PyVal) (rest : List (String × PyVal))
    (h : wfLevel ((k, v) :: rest) = true) (hk : k ∈ attrSkip) : isAttrVal v = true := by
  simp only [wfLevel, Bool.and_eq_true] at h
  have hb := wfWalk_head k v rest h.2
  rw [if_pos hk] at hb
  exact hb

theorem wfLevel_dict_parts (k : String) (d : List (String × PyVal))
    (rest : List (String × PyVal))
    (h : wfLevel ((k, PyVal.dict d) :: rest) = true) (hk : ¬ k ∈ attrSkip) :
    nodupKeys d = true ∧ goodKeysB d = true ∧
    (match dlookup d "series" with
     | some (PyVal.list xs) =>
         xs.all isObsDict = true ∧ leafAttrsOnly d = true ∧ wfWalk d = true
     | some _ => False
     | none => wfWalk d = true) := by
  simp only [wfLevel, Bool.and_eq_true] at h
  have hb := wfWalk_head k (PyVal.dict d) rest h.2
  rw [if_neg hk] at hb
  simp only [Bool.and_eq_true] at hb
  refine ⟨hb.1.1, hb.1.2, ?_⟩
  have hm := hb.2
  cases hser : dlookup d "series" with
  | none =>
      rw [hser] at hm
      exact hm
  | some sv =>
      rw [hser] at hm
      cases sv <;> simp_all

theorem wfLevel_child (k : String) (d : List (String × PyVal))
    (rest : List (String × PyVal))
    (h : wfLevel ((k, PyVal.dict d) :: rest) = true) (hk : ¬ k ∈ attrSkip) :
    wfLevel d = true := by
  obtain ⟨h1, h2, h3⟩ := wfLevel_dict_parts k d rest h hk
  simp only [wfLevel, Bool.and_eq_true]
  refine ⟨⟨h1, h2⟩, ?_⟩
  cases hser : dlookup d "series" with
  | none => rw [hser] at h3; exact h3
  | some sv =>
      rw [hser] at h3
      cases sv with
      | list xs => exact h3.2.2
      | null => exact absurd h3 (by simp)
      | bool b => exact absurd h3 (by simp)
      | int n => exact absurd h3 (by simp)
      | str s => exact absurd h3 (by simp)
      | dict dd => exact absurd h3 (by simp)

theorem resolve_head (items : List (String × PyVal)) (h : String) (t : List String)
    (ld : List (String × PyVal))
    (hres : dictResolve items (h :: t) = some (ResolveRes.atDict ld)) :
    ∃ dd, dlookup items h = some (PyVal.dict dd) ∧
      dictResolve dd t = some (ResolveRes.atDict ld) := by
  cases hl : dlookup items h with
  | none => simp [dictResolve, hl] at hres
  | some w =>
      cases w with
      | dict dd =>
          refine ⟨dd, rfl, ?_⟩
          simpa [dictResolve, hl] using hres
      | null => simp [dictResolve, hl] at hres
      | bool b => simp [dictResolve, hl] at hres
      | int n => simp [dictResolve, hl] at hres
      | str s => simp [dictResolve, hl] at hres
      | list l2 => simp [dictResolve, hl] at hres

theorem goodKeysB_mem {items : List (String × PyVal)} {k : String} {v : PyVal}
    (hg : goodKeysB items = true) (hm : (k, v) ∈ items) : goodKey k = true := by
  rw [goodKeysB, List.all_eq_true] at hg
  exact hg (k, v) hm

theorem mem_keys_of_dlookup {items : List (String × PyVal)} {h : String} {v : PyVal}
    (hl : dlookup items h = some v) : h ∈ items.map Prod.fst := by
  have := dlookup_mem hl
  exact List.mem_map.mpr ⟨(h, v), this, rfl⟩

theorem getLastD_ne_nil_eq {α : Type} (t : List α) (x y : α) (ht : t ≠ []) :
    t.getLastD x = t.getLastD y := by
  have hsome : t.getLast?.isSome = true := List.getLast?_isSome.mpr ht
  obtain ⟨a, ha⟩ := Option.isSome_iff_exists.mp hsome
  rw [List.getLastD_eq_getLast?, List.getLastD_eq_getLast?, ha]
  rfl

theorem isAttrVal_shape (v : PyVal) (h : isAttrVal v = true) :
    ∃ s, v = PyVal.str s := by
  cases v <;> simp [isAttrVal] at h
  exact ⟨_, rfl⟩

/-- Not-a-nonempty-leaf transfer: with an attribute or non-dict value at
`key`, resolution of any path through this level agrees with `rest`. -/
theorem leafRes_cons_nondict (key : String) (v : PyVal) (rest : List (String × PyVal))
    (hv : ∀ d, v ≠ PyVal.dict d) (hfresh : dmem rest key = false)
    (segs : List String) (hne : segs ≠ []) :
    (leafRes ((key, v) :: rest) segs ↔ leafRes rest segs) := by
  cases segs with
  | nil => exact absurd rfl hne
  | cons h t =>
      by_cases hh : h = key
      · subst hh
        constructor
        · rintro ⟨ld, xs, hres, _, _⟩
          rw [resolve_cons_nondict h v rest t hv] at hres
          cases hres
        · rintro ⟨ld, xs, hres, _, _⟩
          obtain ⟨dd, hdd, _⟩ := resolve_head rest h t ld hres
          simp [dmem, hdd] at hfresh
      · constructor
        · rintro ⟨ld, xs, hres, hser2, hxs⟩
          rw [resolve_cons_ne key v rest h t hh] at hres
          exact ⟨ld, xs, hres, hser2, hxs⟩
        · rintro ⟨ld, xs, hres, hser2, hxs⟩
          exact ⟨ld, xs, by rw [resolve_cons_ne key v rest h t hh]; exact hres,
            hser2, hxs⟩

/-- The walk invariant: `collect_metrics` extends the accumulator by
exactly the level's entries; entry keys are exactly the dot-joined
non-empty-series leaf paths below; values are the latest observations;
and no key is produced twice. -/
def walkP (items : List (String × PyVal)) (path : String) : Prop :=
  (∀ acc, (∀ p, p ∈ (entriesOf items path).map Prod.fst → dmem acc p = false) →
    collect_metrics items path acc = Except.ok (acc ++ entriesOf items path)) ∧
  (∀ p, p ∈ (entriesOf items path).map Prod.fst ↔
    ∃ segs, segs ≠ [] ∧ p = prejoin path segs ∧ leafRes items segs) ∧
  (∀ segs ld xs, segs ≠ [] →
    dictResolve items segs = some (ResolveRes.atDict ld) →
    dlookup ld "series" = some (PyVal.list xs) → xs ≠ [] →
    dlookup (entriesOf items path) (prejoin path segs) =
      some (mkEntry ld (segs.getLastD "") (PyVal.list xs))) ∧
  nodupKeys (entriesOf items path) = true

theorem wfLevel_goodKeysB (items : List (String × PyVal))
    (h : wfLevel items = true) : goodKeysB items = true := by
  simp only [wfLevel, Bool.and_eq_true] at h
  exact h.1.2

theorem walk_skip (key : String) (v : PyVal) (rest : List (String × PyVal))
    (path : String)
    (hfresh : dmem rest key = false)
    (hv : ∀ d, v ≠ PyVal.dict d)
    (hE : entriesOf ((key, v) :: rest) path = entriesOf rest path)
    (hC : ∀ acc, collect_metrics ((key, v) :: rest) path acc =
      collect_metrics rest path acc)
    (ih : walkP rest path) : walkP ((key, v) :: rest) path := by
  obtain ⟨ih1, ih2, ih3, ih4⟩ := ih
  refine ⟨?_, ?_, ?_, ?_⟩
  · intro acc hf
    rw [hC, hE]
    rw [hE] at hf
    exact ih1 acc hf
  · intro p
    rw [hE, ih2 p]
    constructor
    · rintro ⟨segs, hne, hp, hres⟩
      exact ⟨segs, hne, hp,
        (leafRes_cons_nondict key v rest hv hfresh segs hne).mpr hres⟩
    · rintro ⟨segs, hne, hp, hres⟩
      exact ⟨segs, hne, hp,
        (leafRes_cons_nondict key v rest hv hfresh segs hne).mp hres⟩
  · intro segs ld xs hne hres hld hxs
    rw [hE]
    cases segs with
    | nil => exact absurd rfl hne
    | cons h t =>
        by_cases hh : h = key
        · subst hh
          rw [resolve_cons_nondict h v rest t hv] at hres
          cases hres
        · rw [resolve_cons_ne key v rest h t hh] at hres
          exact ih3 (h :: t) ld xs hne hres hld hxs
  · rw [hE]
    exact ih4

theorem walk_emit (key : String) (d rest : List (String × PyVal)) (path : String)
    (xs : List PyVal)
    (hwf : wfLevel ((key, PyVal.dict d) :: rest) = true)
    (hser : dlookup d "series" = some (PyVal.list xs))
    (hxs : xs ≠ [])
    (hlattrs : leafAttrsOnly d = true)
    (hE : entriesOf ((key, PyVal.dict d) :: rest) path =
      ((if path = "" then key else path ++ "." ++ key),
        mkEntry d key (PyVal.list xs)) :: entriesOf rest path)
    (hC : ∀ acc, collect_metrics ((key, PyVal.dict d) :: rest) path acc =
      collect_metrics rest path
        (dset acc (if path = "" then key else path ++ "." ++ key)
          (mkEntry d key (PyVal.list xs))))
    (ihr : walkP rest path) : walkP ((key, PyVal.dict d) :: rest) path := by
  obtain ⟨ihr1, ihr2, ihr3, ihr4⟩ := ihr
  have hgk : goodKey key = true := wfLevel_head_good key (PyVal.dict d) rest hwf
  have hfresh : dmem rest key = false := wfLevel_head_fresh key (PyVal.dict d) rest hwf
  have hgkr : goodKeysB rest = true :=
    wfLevel_goodKeysB rest (wfLevel_tail key (PyVal.dict d) rest hwf)
  have hcpj : prejoin path [key] = (if path = "" then key else path ++ "." ++ key) := rfl
  have hself : dictResolve ((key, PyVal.dict d) :: rest) [key] =
      some (ResolveRes.atDict d) := by
    rw [resolve_cons_dict key d rest []]
    rfl
  have hrest_head : ∀ p, p ∈ (entriesOf rest path).map Prod.fst →
      ∃ h t, h ≠ key ∧ goodKey h = true ∧ p = prejoin path (h :: t) ∧
        leafRes rest (h :: t) := by
    intro p hp
    obtain ⟨segs, hne, hp2, hres⟩ := (ihr2 p).mp hp
    cases segs with
    | nil => exact absurd rfl hne
    | cons h t =>
        obtain ⟨ld, xs2, hres2, hld, hxs2⟩ := hres
        obtain ⟨dd, hdd, _⟩ := resolve_head rest h t ld hres2
        have hhk : h ≠ key := by
          intro he
          subst he
          simp [dmem, hdd] at hfresh
        exact ⟨h, t, hhk, goodKeysB_mem hgkr (dlookup_mem hdd), hp2,
          ⟨ld, xs2, hres2, hld, hxs2⟩⟩
  have hne_cp : ∀ p, p ∈ (entriesOf rest path).map Prod.fst →
      p ≠ (if path = "" then key else path ++ "." ++ key) := by
    intro p hp
    obtain ⟨h, t, hhk, hgh, hp2, _⟩ := hrest_head p hp
    rw [hp2, ← hcpj]
    exact prejoin_head_ne path h key t [] hgh hgk hhk
  refine ⟨?_, ?_, ?_, ?_⟩
  · intro acc hf
    rw [hC]
    have hcpfresh : dmem acc (if path = "" then key else path ++ "." ++ key) = false :=
      hf _ (by rw [hE]; simp)
    rw [dset_append_fresh acc _ _ hcpfresh]
    rw [ihr1 (acc ++ [((if path = "" then key else path ++ "." ++ key),
        mkEntry d key (PyVal.list xs))]) ?_]
    · rw [hE]
      simp
    · intro p hp
      rw [dmem_append]
      have h1 : dmem acc p = false := hf p (by rw [hE]; simp [hp])
      have h2 : dmem [((if path = "" then key else path ++ "." ++ key),
          mkEntry d key (PyVal.list xs))] p = false := by
        simp only [dmem, dlookup]
        have := hne_cp p hp
        rw [if_neg (fun he => this he.symm)]
        rfl
      rw [h1, h2]
      rfl
  · intro p
    rw [hE]
    simp only [List.map_cons, List.mem_cons]
    constructor
    · rintro (hp | hp)
      · exact ⟨[key], by simp, by rw [hp, hcpj], ⟨d, xs, hself, hser, hxs⟩⟩
      · obtain ⟨h, t, hhk, _, hp2, ⟨ld, xs2, hres2, hld, hxs2⟩⟩ := hrest_head p hp
        have hres3 : dictResolve ((key, PyVal.dict d) :: rest) (h :: t) =
            some (ResolveRes.atDict ld) := by
          rw [resolve_cons_ne key (PyVal.dict d) rest h t hhk]
          exact hres2
        exact ⟨h :: t, by simp, hp2, ⟨ld, xs2, hres3, hld, hxs2⟩⟩
    · rintro ⟨segs, hne, hp, ld, xs2, hres, hld, hxs2⟩
      cases segs with
      | nil => exact absurd rfl hne
      | cons h t =>
          by_cases hh : h = key
          · subst hh
            rw [resolve_cons_dict h d rest t] at hres
            cases t with
            | nil =>
                left
                simp only [dictResolve, Option.some.injEq, ResolveRes.atDict.injEq] at hres
                rw [hp, hcpj]
            | cons s t2 =>
                rcases leaf_no_sub d xs hser hlattrs s t2 with hbad | hbad <;>
                  rw [hbad] at hres <;> cases hres
          · right
            rw [resolve_cons_ne key (PyVal.dict d) rest h t hh] at hres
            exact (ihr2 p).mpr ⟨h :: t, by simp, hp, ⟨ld, xs2, hres, hld, hxs2⟩⟩
  · intro segs ld xs2 hne hres hld hxs2
    rw [hE]
    cases segs with
    | nil => exact absurd rfl hne
    | cons h t =>
        by_cases hh : h = key
        · subst hh
          rw [resolve_cons_dict h d rest t] at hres
          cases t with
          | nil =>
              simp only [dictResolve, Option.some.injEq, ResolveRes.atDict.injEq] at hres
              subst hres
              rw [hld] at hser
              cases hser
              rw [← hcpj]
              simp [dlookup, List.getLastD]
          | cons s t2 =>
              rcases leaf_no_sub d xs hser hlattrs s t2 with hbad | hbad
              · rw [hbad] at hres; cases hres
              · rw [hbad] at hres; cases hres
        · obtain ⟨dd, hdd, _⟩ := resolve_head rest h t ld
            (by rw [← resolve_cons_ne key (PyVal.dict d) rest h t hh]; exact hres)
          have hgh : goodKey h = true := goodKeysB_mem hgkr (dlookup_mem hdd)
          have hpne : prejoin path (h :: t) ≠
              (if path = "" then key else path ++ "." ++ key) := by
            rw [← hcpj]
            exact prejoin_head_ne path h key t [] hgh hgk hh
          simp only [dlookup]
          rw [if_neg (fun he => hpne he.symm)]
          rw [resolve_cons_ne key (PyVal.dict d) rest h t hh] at hres
          exact ihr3 (h :: t) ld xs2 (by simp) hres hld hxs2
  · rw [hE]
    simp only [nodupKeys, Bool.and_eq_true]
    constructor
    · have : dlookup (entriesOf rest path)
          (if path = "" then key else path ++ "." ++ key) = none := by
        rw [dlookup_eq_none_iff]
        intro hmem
        exact hne_cp _ hmem rfl
      simp [dmem, this]
    · exact ihr4

theorem walk_recurse (key : String) (d rest : List (String × PyVal)) (path : String)
    (hk : ¬ key ∈ attrSkip)
    (hwf : wfLevel ((key, PyVal.dict d) :: rest) = true)
    (hnl : ∀ xs, dlookup d "series" = some (PyVal.list xs) → xs = [])
    (hE : entriesOf ((key, PyVal.dict d) :: rest) path =
      entriesOf d (if path = "" then key else path ++ "." ++ key) ++
        entriesOf rest path)
    (hC : ∀ acc, collect_metrics ((key, PyVal.dict d) :: rest) path acc =
      (match collect_metrics d (if path = "" then key else path ++ "." ++ key) acc with
       | Except.ok l2 => collect_metrics rest path l2
       | Except.error e => Except.error e))
    (ihc : walkP d (if path = "" then key else path ++ "." ++ key))
    (ihr : walkP rest path) : walkP ((key, PyVal.dict d) :: rest) path := by
  obtain ⟨ic1, ic2, ic3, ic4⟩ := ihc
  obtain ⟨ihr1, ihr2, ihr3, ihr4⟩ := ihr
  have hgk : goodKey key = true := wfLevel_head_good key (PyVal.dict d) rest hwf
  have hfresh : dmem rest key = false := wfLevel_head_fresh key (PyVal.dict d) rest hwf
  have hgkr : goodKeysB rest = true :=
    wfLevel_goodKeysB rest (wfLevel_tail key (PyVal.dict d) rest hwf)
  have hcpj : ∀ segs, prejoin path (key :: segs) =
      prejoin (if path = "" then key else path ++ "." ++ key) segs := fun segs => rfl
  have hchild_shape : ∀ p, p ∈ (entriesOf d
      (if path = "" then key else path ++ "." ++ key)).map Prod.fst →
      ∃ s2, s2 ≠ [] ∧ p = prejoin path (key :: s2) ∧ leafRes d s2 := by
    intro p hp
    obtain ⟨s2, hne, hp2, hres⟩ := (ic2 p).mp hp
    exact ⟨s2, hne, by rw [hcpj s2]; exact hp2, hres⟩
  have hrest_head : ∀ p, p ∈ (entriesOf rest path).map Prod.fst →
      ∃ h t, h ≠ key ∧ goodKey h = true ∧ p = prejoin path (h :: t) ∧
        leafRes rest (h :: t) := by
    intro p hp
    obtain ⟨segs, hne, hp2, hres⟩ := (ihr2 p).mp hp
    cases segs with
    | nil => exact absurd rfl hne
    | cons h t =>
        obtain ⟨ld, xs2, hres2, hld, hxs2⟩ := hres
        obtain ⟨dd, hdd, _⟩ := resolve_head rest h t ld hres2
        have hhk : h ≠ key := by
          intro he
          subst he
          simp [dmem, hdd] at hfresh
        exact ⟨h, t, hhk, goodKeysB_mem hgkr (dlookup_mem hdd), hp2,
          ⟨ld, xs2, hres2, hld, hxs2⟩⟩
  have hdisj : ∀ p, p ∈ (entriesOf d
      (if path = "" then key else path ++ "." ++ key)).map Prod.fst →
      p ∉ (entriesOf rest path).map Prod.fst := by
    intro p hpc hpr
    obtain ⟨s2, _, hp2, _⟩ := hchild_shape p hpc
    obtain ⟨h, t, hhk, hgh, hp3, _⟩ := hrest_head p hpr
    rw [hp2] at hp3
    exact prejoin_head_ne path key h s2 t hgk hgh (fun he => hhk he.symm) hp3
  refine ⟨?_, ?_, ?_, ?_⟩
  · intro acc hf
    have hfc : ∀ p, p ∈ (entriesOf d
        (if path = "" then key else path ++ "." ++ key)).map Prod.fst →
        dmem acc p = false := by
      intro p hp
      exact hf p (by rw [hE]; simp [hp])
    have hfr : ∀ p, p ∈ (entriesOf rest path).map Prod.fst →
        dmem (acc ++ entriesOf d
          (if path = "" then key else path ++ "." ++ key)) p = false := by
      intro p hp
      rw [dmem_append]
      have h1 : dmem acc p = false := hf p (by rw [hE]; simp [hp])
      have h2 : dmem (entriesOf d
          (if path = "" then key else path ++ "." ++ key)) p = false := by
        have : dlookup (entriesOf d
            (if path = "" then key else path ++ "." ++ key)) p = none := by
          rw [dlookup_eq_none_iff]
          intro hpc
          exact hdisj p hpc hp
        simp [dmem, this]
      rw [h1, h2]
      rfl
    rw [hC, ic1 acc hfc]
    show collect_metrics rest path (acc ++ entriesOf d
      (if path = "" then key else path ++ "." ++ key)) = _
    rw [ihr1 _ hfr, hE]
    simp
  · intro p
    rw [hE]
    simp only [List.map_append, List.mem_append]
    constructor
    · rintro (hp | hp)
      · obtain ⟨s2, hne, hp2, ⟨ld, xs2, hres2, hld, hxs2⟩⟩ := hchild_shape p hp
        have hres3 : dictResolve ((key, PyVal.dict d) :: rest) (key :: s2) =
            some (ResolveRes.atDict ld) := by
          rw [resolve_cons_dict key d rest s2]
          exact hres2
        exact ⟨key :: s2, by simp, hp2, ⟨ld, xs2, hres3, hld, hxs2⟩⟩
      · obtain ⟨h, t, hhk, _, hp2, ⟨ld, xs2, hres2, hld, hxs2⟩⟩ := hrest_head p hp
        have hres3 : dictResolve ((key, PyVal.dict d) :: rest) (h :: t) =
            some (ResolveRes.atDict ld) := by
          rw [resolve_cons_ne key (PyVal.dict d) rest h t hhk]
          exact hres2
        exact ⟨h :: t, by simp, hp2, ⟨ld, xs2, hres3, hld, hxs2⟩⟩
    · rintro ⟨segs, hne, hp, ld, xs2, hres, hld, hxs2⟩
      cases segs with
      | nil => exact absurd rfl hne
      | cons h t =>
          by_cases hh : h = key
          · subst hh
            rw [resolve_cons_dict h d rest t] at hres
            cases t with
            | nil =>
                simp only [dictResolve, Option.some.injEq, ResolveRes.atDict.injEq] at hres
                subst hres
                have := hnl xs2 hld
                subst this
                exact absurd rfl hxs2
            | cons s t2 =>
                left
                refine (ic2 p).mpr ⟨s :: t2, by simp, ?_, ⟨ld, xs2, hres, hld, hxs2⟩⟩
                rw [hp, hcpj (s :: t2)]
          · right
            rw [resolve_cons_ne key (PyVal.dict d) rest h t hh] at hres
            exact (ihr2 p).mpr ⟨h :: t, by simp, hp, ⟨ld, xs2, hres, hld, hxs2⟩⟩
  · intro segs ld xs2 hne hres hld hxs2
    rw [hE]
    cases segs with
    | nil => exact absurd rfl hne
    | cons h t =>
        by_cases hh : h = key
        · subst hh
          rw [resolve_cons_dict h d rest t] at hres
          cases t with
          | nil =>
              simp only [dictResolve, Option.some.injEq, ResolveRes.atDict.injEq] at hres
              subst hres
              have := hnl xs2 hld
              subst this
              exact absurd rfl hxs2
          | cons s t2 =>
              have hlook := ic3 (s :: t2) ld xs2 (by simp) hres hld hxs2
              rw [hcpj (s :: t2)]
              have hlast : ((h :: s :: t2).getLastD "") = ((s :: t2).getLastD "") := by
                rw [List.getLastD_cons]
                exact getLastD_ne_nil_eq (s :: t2) h "" (by simp)
              rw [hlast]
              exact dlookup_append_left _ _ _ _ hlook
        · obtain ⟨dd, hdd, _⟩ := resolve_head rest h t ld
            (by rw [← resolve_cons_ne key (PyVal.dict d) rest h t hh]; exact hres)
          have hgh : goodKey h = true := goodKeysB_mem hgkr (dlookup_mem hdd)
          have hnone : dlookup (entriesOf d
              (if path = "" then key else path ++ "." ++ key))
              (prejoin path (h :: t)) = none := by
            rw [dlookup_eq_none_iff]
            intro hpc
            obtain ⟨s2, _, hp2, _⟩ := hchild_shape _ hpc
            exact prejoin_head_ne path key h s2 t hgk hgh
              (fun he => hh he.symm) hp2.symm
          rw [dlookup_append_right _ _ _ hnone]
          rw [resolve_cons_ne key (PyVal.dict d) rest h t hh] at hres
          exact ihr3 (h :: t) ld xs2 (by simp) hres hld hxs2
  · rw [hE]
    exact nodupKeys_append _ _ ic4 ihr4 hdisj

theorem walk_main (items : List (String × PyVal)) (path : String) :
    wfLevel items = true → walkP items path := by
  induction items, path using entriesOf.induct with
  | case1 path =>
      intro _
      refine ⟨?_, ?_, ?_, ?_⟩
      · intro acc _
        simp [collect_metrics, entriesOf, pure, Except.pure]
      · intro p
        simp only [entriesOf, List.map_nil, List.not_mem_nil, false_iff]
        rintro ⟨segs, hne, _, ld, xs, hres, _, _⟩
        cases segs with
        | nil => exact absurd rfl hne
        | cons h t => simp [dictResolve, dlookup] at hres
      · intro segs ld xs hne hres _ _
        cases segs with
        | nil => exact absurd rfl hne
        | cons h t => simp [dictResolve, dlookup] at hres
      · simp [entriesOf, nodupKeys]
  | case2 key v rest path hk ih =>
      intro hwf
      obtain ⟨s, hs⟩ := isAttrVal_shape v (wfLevel_attr key v rest hwf hk)
      subst hs
      refine walk_skip key (PyVal.str s) rest path
        (wfLevel_head_fresh key (PyVal.str s) rest hwf)
        (fun dd he => by cases he) ?_ ?_
        (ih (wfLevel_tail key (PyVal.str s) rest hwf))
      · simp [entriesOf, hk]
      · intro acc
        simp [collect_metrics, hk]
  | case3 key rest path hk d w hser htr ih =>
      intro hwf
      have hparts := wfLevel_dict_parts key d rest hwf hk
      rw [hser] at hparts
      obtain ⟨hnd, hgd, hm⟩ := hparts
      cases w with
      | list xs =>
          obtain ⟨hobs, hlattrs, _⟩ := hm
          have hxs : xs ≠ [] := by
            simp only [truthy] at htr
            simpa using htr
          obtain ⟨od, lv, lt, hlast, hv, ht⟩ := obs_last xs hobs hxs
          have hmk : mkEntry d key (PyVal.list xs) =
              PyVal.dict [("value", lv), ("timestamp", lt),
                ("name", (dlookup d "name").getD (PyVal.str key))] := by
            simp [mkEntry, hlast, hv, ht]
          refine walk_emit key d rest path xs hwf hser hxs hlattrs ?_ ?_
            (ih (wfLevel_tail key (PyVal.dict d) rest hwf))
          · simp [entriesOf, hk, hser, htr]
          · intro acc
            rw [hmk]
            simp [collect_metrics, hk, hser, htr, hlast, hv, ht]
      | null => exact absurd hm (by simp)
      | bool b => exact absurd hm (by simp)
      | int n => exact absurd hm (by simp)
      | str s2 => exact absurd hm (by simp)
      | dict dd => exact absurd hm (by simp)
  | case4 key rest path hk cp d w hser hntr ihc ihr =>
      intro hwf
      have hparts := wfLevel_dict_parts key d rest hwf hk
      rw [hser] at hparts
      obtain ⟨hnd, hgd, hm⟩ := hparts
      cases w with
      | list xs =>
          have hempty : xs = [] := by
            simp only [truthy] at hntr
            simpa using hntr
          subst hempty
          refine walk_recurse key d rest path hk hwf ?_ ?_ ?_
            (ihc (wfLevel_child key d rest hwf hk))
            (ihr (wfLevel_tail key (PyVal.dict d) rest hwf))
          · intro xs2 h2
            rw [hser] at h2
            cases h2
            rfl
          · simp [entriesOf, hk, hser, truthy]
          · intro acc
            simp [collect_metrics, hk, hser, truthy]
      | null => exact absurd hm (by simp)
      | bool b => exact absurd hm (by simp)
      | int n => exact absurd hm (by simp)
      | str s2 => exact absurd hm (by simp)
      | dict dd => exact absurd hm (by simp)
  | case5 key rest path hk cp d hser ihc ihr =>
      intro hwf
      refine walk_recurse key d rest path hk hwf ?_ ?_ ?_
        (ihc (wfLevel_child key d rest hwf hk))
        (ihr (wfLevel_tail key (PyVal.dict d) rest hwf))
      · intro xs2 h2
        rw [hser] at h2
        cases h2
      · simp [entriesOf, hk, hser]
      · intro acc
        simp [collect_metrics, hk, hser]
  | case6 key v rest path hk hnv ih =>
      intro hwf
      refine walk_skip key v rest path
        (wfLevel_head_fresh key v rest hwf)
        (fun dd he => hnv dd he) ?_ ?_
        (ih (wfLevel_tail key v rest hwf))
      · cases v with
        | dict dd => exact absurd rfl (hnv dd)
        | null => simp [entriesOf, hk]
        | bool b => simp [entriesOf, hk]
        | int n => simp [entriesOf, hk]
        | str s2 => simp [entriesOf, hk]
        | list l2 => simp [entriesOf, hk]
      · intro acc
        cases v with
        | dict dd => exact absurd rfl (hnv dd)
        | null => simp [collect_metrics, hk]
        | bool b => simp [collect_metrics, hk]
        | int n => simp [collect_metrics, hk]
        | str s2 => simp [collect_metrics, hk]
        | list l2 => simp [collect_metrics, hk]


/-- C2: for every document whose metrics tree is well-formed per the data
model (unique, non-empty, dot-free keys; descriptive attribute keys
carrying strings; leaves carrying a `series` list of `{t, v}`
observations plus descriptive attributes only), `get_all_latest_metrics`
succeeds and its keys are exactly the dot-joined paths of leaves with a
non-empty series — none missing, none duplicated — each entry carrying
the last observation's `v` as value, its `t` as timestamp, and the leaf's
`name` attribute (or its own key when `name` is absent). -/
theorem c2_theorem (tl m : List (String × PyVal))
    (hm : dlookup tl "metrics" = some (PyVal.dict m))
    (hwf : wfLevel m = true) :
    ∃ latest, get_all_latest_metrics tl = Except.ok latest ∧
      (∀ p, p ∈ latest.map Prod.fst ↔
        ∃ segs, segs ≠ [] ∧ p = joinSegs segs ∧ leafRes m segs) ∧
      (∀ segs ld xs od lv lt, segs ≠ [] →
        dictResolve m segs = some (ResolveRes.atDict ld) →
        dlookup ld "series" = some (PyVal.list xs) →
        xs.getLast? = some (PyVal.dict od) →
        dlookup od "v" = some lv → dlookup od "t" = some lt →
        dlookup latest (joinSegs segs) =
          some (PyVal.dict [("value", lv), ("timestamp", lt),
            ("name", (dlookup ld "name").getD (PyVal.str (segs.getLastD "")))])) ∧
      nodupKeys latest = true := by
  obtain ⟨w1, w2, w3, w4⟩ := walk_main m "" hwf
  have hhead : ∀ segs, leafRes m segs → segs ≠ [] →
      ∃ k t, segs = k :: t ∧ k ≠ "" := by
    intro segs hres hne
    cases segs with
    | nil => exact absurd rfl hne
    | cons k t =>
        obtain ⟨ld, xs, hres2, _, _⟩ := hres
        obtain ⟨dd, hdd, _⟩ := resolve_head m k t ld hres2
        exact ⟨k, t, rfl, goodKey_ne_empty
          (goodKeysB_mem (wfLevel_goodKeysB m hwf) (dlookup_mem hdd))⟩
  have hjoin : ∀ segs, leafRes m segs → segs ≠ [] →
      prejoin "" segs = joinSegs segs := by
    intro segs hres hne
    obtain ⟨k, t, hseg, hk⟩ := hhead segs hres hne
    subst hseg
    exact prejoin_empty_join t k hk
  refine ⟨entriesOf m "", ?_, ?_, ?_, w4⟩
  · simp only [get_all_latest_metrics, hm]
    rw [w1 [] (fun p _ => rfl)]
    rfl
  · intro p
    rw [w2 p]
    constructor
    · rintro ⟨segs, hne, hp, hres⟩
      exact ⟨segs, hne, by rw [hp, hjoin segs hres hne], hres⟩
    · rintro ⟨segs, hne, hp, hres⟩
      exact ⟨segs, hne, by rw [hp, hjoin segs hres hne], hres⟩
  · intro segs ld xs od lv lt hne hres hld hlast hv ht
    have hxs : xs ≠ [] := by
      intro he
      subst he
      simp at hlast
    have hlr : leafRes m segs := ⟨ld, xs, hres, hld, hxs⟩
    rw [← hjoin segs hlr hne]
    rw [w3 segs ld xs hne hres hld hxs]
    simp [mkEntry, hlast, hv, ht]

def mW : List (String × PyVal) :=
  [("wikidata", PyVal.dict
      [("description", PyVal.str "Wikidata scholarly graph metrics"),
       ("p1343", PyVal.dict [("series", PyVal.list [obsD "T1" (PyVal.int 14)]),
         ("unit", PyVal.str "count")])]),
   ("x", PyVal.dict [("series", PyVal.list [obsD "T2" (PyVal.int 2)]),
     ("name", PyVal.str "XL")])]

/-- C2 witness: the flatten property evaluated on a two-leaf document
with one nested and one root-level metric. -/
theorem c2_witness :
    ∃ latest, get_all_latest_metrics [("metrics", PyVal.dict mW)] = Except.ok latest ∧
      (∀ p, p ∈ latest.map Prod.fst ↔
        ∃ segs, segs ≠ [] ∧ p = joinSegs segs ∧ leafRes mW segs) ∧
      (∀ segs ld xs od lv lt, segs ≠ [] →
        dictResolve mW segs = some (ResolveRes.atDict ld) →
        dlookup ld "series" = some (PyVal.list xs) →
        xs.getLast? = some (PyVal.dict od) →
        dlookup od "v" = some lv → dlookup od "t" = some lt →
        dlookup latest (joinSegs segs) =
          some (PyVal.dict [("value", lv), ("timestamp", lt),
            ("name", (dlookup ld "name").getD (PyVal.str (segs.getLastD "")))])) ∧
      nodupKeys latest = true :=
  c2_theorem [("metrics", PyVal.dict mW)] mW rfl (by
    simp [wfLevel, mW, wfWalk, nodupKeys, goodKeysB, goodKey, dmem, dlookup, attrSkip,
      isObsDict, isScalar, leafAttrsOnly, leafAttrKeys, isAttrVal, obsD])
